import Mathlib

/-!
Verification development for the devenv environment-lifecycle orchestrator.

The definitions below are a shallow embedding of the TypeScript sources:
  * `packages/shared/src/constants.ts` — configuration constants,
  * `packages/cli/src/db/database.ts` — the SQLite state store (rows are
    lists, the SQL UNIQUE constraints become explicit guards that make the
    insert fail, AUTOINCREMENT becomes an explicit next-id counter),
  * `packages/cli/src/utils/envfiles.ts` — hostname / route-id generation,
  * `packages/cli/src/tunnel/caddy.ts` — the route synchronizer against a
    model of the Caddy admin API (a route collection where the per-id PUT
    only updates existing objects and reports not-found otherwise),
  * `packages/cli/src/commands/{create,start}.ts` and the stop / branch /
    env commands — the lifecycle operations.

Filesystem and subprocess results (discovered env files, forwarded ports
parsed from devcontainer.json, container ids returned by the runtime) are
passed in as explicit inputs; network gateway responses are provided by a
`RuntimeOracle`.
-/

namespace DevEnv

/-! ### Constants (packages/shared/src/constants.ts) -/

def DEFAULT_CONTAINER_PORT : Nat := 3000

def LOCALHOST_SUFFIX : String := ".localhost"

def HOST_PORT_RANGE_START : Nat := 49200

/-! ### Decimal rendering of numbers (JS template-string `${port}`) -/

/-- The decimal digit character for `n % 10`. -/
def digitOf (d : Nat) : Char :=
  match d with
  | 0 => '0' | 1 => '1' | 2 => '2' | 3 => '3' | 4 => '4'
  | 5 => '5' | 6 => '6' | 7 => '7' | 8 => '8' | _ => '9'

def digitChar (n : Nat) : Char := digitOf (n % 10)

/-- Decimal digit list of a natural number, most significant first. -/
def natDigits (n : Nat) : List Char :=
  if _h : n < 10 then [digitChar n]
  else natDigits (n / 10) ++ [digitChar n]
decreasing_by exact Nat.div_lt_self (by omega) (by omega)

/-- Decimal string of a natural number, as JS string interpolation renders it. -/
def natStr (n : Nat) : String := ⟨natDigits n⟩

theorem digitOf_ne_dash (d : Nat) : digitOf d ≠ '-' := by
  unfold digitOf; split <;> decide

theorem digitChar_ne_dash (n : Nat) : digitChar n ≠ '-' :=
  digitOf_ne_dash (n % 10)

theorem natDigits_ne_dash (n : Nat) : ∀ c ∈ natDigits n, c ≠ '-' := by
  induction n using Nat.strong_induction_on with
  | _ n ih =>
    unfold natDigits
    split
    · intro c hc
      simp only [List.mem_singleton] at hc
      subst hc; exact digitChar_ne_dash n
    · intro c hc
      rcases List.mem_append.1 hc with h | h
      · exact ih (n / 10) (Nat.div_lt_self (by omega) (by omega)) c h
      · simp only [List.mem_singleton] at h
        subst h; exact digitChar_ne_dash n

/-- Value of a digit character. -/
def charDigitVal (c : Char) : Nat := c.toNat - 48

/-- Decimal value of a digit list. -/
def digitsVal (l : List Char) : Nat := l.foldl (fun a c => 10 * a + charDigitVal c) 0

theorem charDigitVal_digitOf (d : Nat) (h : d < 10) : charDigitVal (digitOf d) = d := by
  interval_cases d <;> decide

theorem charDigitVal_digitChar (n : Nat) : charDigitVal (digitChar n) = n % 10 :=
  charDigitVal_digitOf (n % 10) (Nat.mod_lt n (by omega))

theorem digitsVal_append (xs : List Char) (c : Char) :
    digitsVal (xs ++ [c]) = 10 * digitsVal xs + charDigitVal c := by
  simp [digitsVal, List.foldl_append]

theorem digitsVal_natDigits (n : Nat) : digitsVal (natDigits n) = n := by
  induction n using Nat.strong_induction_on with
  | _ n ih =>
    unfold natDigits
    split
    · simp [digitsVal, charDigitVal_digitChar]
      omega
    · rw [digitsVal_append, ih (n / 10) (Nat.div_lt_self (by omega) (by omega)),
        charDigitVal_digitChar]
      omega

theorem natStr_injective {m n : Nat} (h : natStr m = natStr n) : m = n := by
  have hd : natDigits m = natDigits n := congrArg String.data h
  have := congrArg digitsVal hd
  rwa [digitsVal_natDigits, digitsVal_natDigits] at this

theorem natStr_ne_dash (n : Nat) : ∀ c ∈ (natStr n).data, c ≠ '-' :=
  natDigits_ne_dash n

/-! ### slugify (commands/create.ts) -/

def isSlugChar (c : Char) : Bool :=
  ('a' ≤ c && c ≤ 'z') || ('0' ≤ c && c ≤ '9') || c == '-'

/-- Collapse runs of dashes to one dash (the dash-run → single-dash replace). -/
def collapseDashes : List Char → List Char
  | [] => []
  | [c] => [c]
  | c :: d :: rest =>
    if c = '-' && d = '-' then collapseDashes (d :: rest)
    else c :: collapseDashes (d :: rest)

/-- Remove one leading and one trailing dash (the edge-dash replace). -/
def dropEdgeDashes (l : List Char) : List Char :=
  let l1 := if l.head? = some '-' then l.tail else l
  if l1.getLast? = some '-' then l1.dropLast else l1

/-- `slugify` from commands/create.ts: lowercase, replace characters outside
`[a-z0-9-]` by dashes, collapse dash runs, strip edge dashes. -/
def slugify (s : String) : String :=
  ⟨dropEdgeDashes (collapseDashes ((s.data.map Char.toLower).map
    (fun c => if isSlugChar c then c else '-')))⟩

/-! ### Hostname and route-id generation (utils/envfiles.ts) -/

/-- `generateHostname` from utils/envfiles.ts. -/
def generateHostname (projectName branch : String) (port : Option Nat) : String :=
  let portSuffix :=
    match port with
    | some p => if p ≠ DEFAULT_CONTAINER_PORT then "-" ++ natStr p else ""
    | none => ""
  projectName ++ "-" ++ branch ++ portSuffix ++ LOCALHOST_SUFFIX

/-- `formatRouteId` from utils/envfiles.ts. -/
def formatRouteId (envName : String) : String := "devenv-" ++ envName

/-- The route id the commands derive for one port of one environment:
`formatRouteId(`${envName}-${containerPort}`)`. -/
def routeId (envName : String) (containerPort : Nat) : String :=
  formatRouteId (envName ++ "-" ++ natStr containerPort)

theorem takeWhile_append_of_all {α} (p : α → Bool) {xs : List α} (y : α) (ys : List α)
    (hx : ∀ c ∈ xs, p c = true) (hy : p y = false) :
    (xs ++ y :: ys).takeWhile p = xs := by
  induction xs with
  | nil => simp [List.takeWhile, hy]
  | cons a l ih =>
    have ha : p a = true := hx a (by simp)
    simp only [List.cons_append, List.takeWhile, ha]
    exact congrArg (a :: ·) (ih (fun c hc => hx c (by simp [hc])))

/-- Splitting a character list at a final separator not occurring in the tails
is unique. -/
theorem sep_split_unique {a b t1 t2 : List Char}
    (h1 : ∀ c ∈ t1, c ≠ '-') (h2 : ∀ c ∈ t2, c ≠ '-')
    (h : a ++ '-' :: t1 = b ++ '-' :: t2) : a = b ∧ t1 = t2 := by
  have hrev := congrArg List.reverse h
  simp only [List.reverse_append, List.reverse_cons] at hrev
  have hps : (t1.reverse ++ '-' :: a.reverse).takeWhile (fun c => !(c == '-'))
      = t1.reverse := by
    refine takeWhile_append_of_all _ _ _ (fun c hc => ?_) (by decide)
    have := h1 c (List.mem_reverse.1 hc)
    simp [this]
  have hps' : (t2.reverse ++ '-' :: b.reverse).takeWhile (fun c => !(c == '-'))
      = t2.reverse := by
    refine takeWhile_append_of_all _ _ _ (fun c hc => ?_) (by decide)
    have := h2 c (List.mem_reverse.1 hc)
    simp [this]
  have hrev' : t1.reverse ++ '-' :: a.reverse = t2.reverse ++ '-' :: b.reverse := by
    simpa using hrev
  have ht : t1.reverse = t2.reverse := by rw [← hps, ← hps', hrev']
  have ht' : t1 = t2 := List.reverse_injective ht
  subst ht'
  refine ⟨?_, rfl⟩
  have := List.append_cancel_right h
  simpa using this

theorem routeId_eq_iff {n1 n2 : String} {p1 p2 : Nat} :
    routeId n1 p1 = routeId n2 p2 ↔ (n1 = n2 ∧ p1 = p2) := by
  constructor
  · intro h
    have hd := congrArg String.data h
    simp only [routeId, formatRouteId] at hd
    have hd' : "devenv-".data ++ (n1.data ++ '-' :: (natStr p1).data)
        = "devenv-".data ++ (n2.data ++ '-' :: (natStr p2).data) := by
      simpa [String.data_append, List.append_assoc] using hd
    have hmid := List.append_cancel_left hd'
    obtain ⟨hn, hp⟩ := sep_split_unique (natStr_ne_dash p1) (natStr_ne_dash p2) hmid
    exact ⟨String.ext hn, natStr_injective (String.ext hp)⟩
  · rintro ⟨rfl, rfl⟩; rfl

/-! ### Data model (db/database.ts schema and row mappers) -/

inductive EnvStatus
  | created
  | running
  | stopped
  | error
deriving DecidableEq, Repr

structure Project where
  id : Nat
  name : String
  repoPath : String
deriving DecidableEq, Repr

structure Environment where
  id : Nat
  projectId : Nat
  name : String
  branch : String
  status : EnvStatus
  containerId : Option String
  worktreePath : Option String
  devcontainerConfig : Option String
deriving DecidableEq, Repr

structure EnvFile where
  id : Nat
  environmentId : Nat
  relativePath : String
  content : String
deriving DecidableEq, Repr

structure PortMapping where
  id : Nat
  environmentId : Nat
  containerPort : Nat
  hostPort : Nat
  hostname : String
deriving DecidableEq, Repr

/-- The SQLite store: row lists plus the AUTOINCREMENT counters. -/
structure Db where
  projects : List Project
  environments : List Environment
  envFiles : List EnvFile
  portMappings : List PortMapping
  nextProjectId : Nat
  nextEnvironmentId : Nat
  nextEnvFileId : Nat
  nextPortMappingId : Nat
deriving DecidableEq, Repr

def emptyDb : Db :=
  { projects := [], environments := [], envFiles := [], portMappings := [],
    nextProjectId := 1, nextEnvironmentId := 1, nextEnvFileId := 1,
    nextPortMappingId := 1 }

/-! ### State-store operations (db/database.ts)

Inserts that can violate a SQL UNIQUE constraint return `none` in that case
(bun:sqlite throws); all other operations are total. -/

def insertProject (db : Db) (name repoPath : String) : Option (Project × Db) :=
  if db.projects.any (fun p => p.name == name) then none
  else
    let p : Project := ⟨db.nextProjectId, name, repoPath⟩
    some (p, { db with projects := db.projects ++ [p],
                       nextProjectId := db.nextProjectId + 1 })

def getProjectByName (db : Db) (name : String) : Option Project :=
  db.projects.find? (fun p => p.name == name)

def getProjectById (db : Db) (id : Nat) : Option Project :=
  db.projects.find? (fun p => p.id == id)

def insertEnvironment (db : Db) (projectId : Nat) (name branch : String)
    (worktreePath : Option String) (devcontainerConfig : Option String) :
    Option (Environment × Db) :=
  if db.environments.any (fun e => e.name == name) then none
  else
    let e : Environment :=
      ⟨db.nextEnvironmentId, projectId, name, branch, .created, none,
        worktreePath, devcontainerConfig⟩
    some (e, { db with environments := db.environments ++ [e],
                       nextEnvironmentId := db.nextEnvironmentId + 1 })

def getEnvironmentByName (db : Db) (name : String) : Option Environment :=
  db.environments.find? (fun e => e.name == name)

def updateEnvironmentStatus (db : Db) (id : Nat) (status : EnvStatus) : Db :=
  { db with environments :=
      db.environments.map (fun e => if e.id = id then { e with status := status } else e) }

def updateEnvironmentContainer (db : Db) (id : Nat) (containerId : String) : Db :=
  { db with environments :=
      db.environments.map (fun e =>
        if e.id = id then { e with containerId := some containerId } else e) }

def upsertEnvFile (db : Db) (environmentId : Nat) (relativePath content : String) : Db :=
  if db.envFiles.any (fun f => f.environmentId == environmentId && f.relativePath == relativePath) then
    { db with envFiles :=
        db.envFiles.map (fun f =>
          if f.environmentId = environmentId ∧ f.relativePath = relativePath then
            { f with content := content }
          else f) }
  else
    { db with
        envFiles := db.envFiles ++ [⟨db.nextEnvFileId, environmentId, relativePath, content⟩],
        nextEnvFileId := db.nextEnvFileId + 1 }

/-- Insertion into a list sorted by `le` (used to model SQL ORDER BY). -/
def insertSorted {α} (le : α → α → Bool) (x : α) : List α → List α
  | [] => [x]
  | y :: ys => if le x y then x :: y :: ys else y :: insertSorted le x ys

def sortBy {α} (le : α → α → Bool) : List α → List α
  | [] => []
  | x :: xs => insertSorted le x (sortBy le xs)

def getEnvFiles (db : Db) (environmentId : Nat) : List EnvFile :=
  sortBy (fun a b => a.relativePath ≤ b.relativePath)
    (db.envFiles.filter (fun f => f.environmentId == environmentId))

def insertPortMapping (db : Db) (environmentId containerPort hostPort : Nat)
    (hostname : String) : Option (PortMapping × Db) :=
  if db.portMappings.any (fun m => m.hostPort == hostPort || m.hostname == hostname) then
    none
  else
    let m : PortMapping :=
      ⟨db.nextPortMappingId, environmentId, containerPort, hostPort, hostname⟩
    some (m, { db with portMappings := db.portMappings ++ [m],
                       nextPortMappingId := db.nextPortMappingId + 1 })

def getPortMappings (db : Db) (environmentId : Nat) : List PortMapping :=
  sortBy (fun a b => a.containerPort ≤ b.containerPort)
    (db.portMappings.filter (fun m => m.environmentId == environmentId))

def deletePortMappings (db : Db) (environmentId : Nat) : Db :=
  { db with portMappings :=
      db.portMappings.filter (fun m => ¬ m.environmentId = environmentId) }

/-- `getNextAvailableHostPort`: `SELECT MAX(host_port)` and then
`row.max_port ? row.max_port + 1 : HOST_PORT_RANGE_START`.  SQL `MAX` over an
empty table yields NULL and the JS conditional treats both NULL and 0 as
falsy, so folding `max` with base 0 captures the exact guard. -/
def getNextAvailableHostPort (db : Db) : Nat :=
  let maxPort := (db.portMappings.map (fun m => m.hostPort)).foldr max 0
  if maxPort ≠ 0 then maxPort + 1 else HOST_PORT_RANGE_START

/-! ### Reverse-proxy model and route synchronizer (tunnel/caddy.ts)

The Caddy admin API state is the `devenv` server's route collection:
`none` when the server config was never initialized.  A route object is
determined by its `@id`, matched hostname and upstream host port (the dial
target is `host.docker.internal:<hostPort>`).  The per-id `PUT /id/{id}`
endpoint only updates an existing object and reports not-found otherwise;
`POST` on the collection appends; `DELETE /id/{id}` treats not-found as
success. -/

structure CaddyRoute where
  id : String
  hostname : String
  hostPort : Nat
deriving DecidableEq, Repr

abbrev CaddyState := Option (List CaddyRoute)

/-- `ensureServerConfig`: GET the server config; on not-found PUT `{routes: []}`. -/
def ensureServerConfig : CaddyState → CaddyState
  | none => some []
  | some rs => some rs

/-- `PUT /id/{id}`: replace the existing object with this id, not-found otherwise. -/
def putRouteById (rs : List CaddyRoute) (r : CaddyRoute) : Option (List CaddyRoute) :=
  match rs with
  | [] => none
  | x :: xs =>
    if x.id = r.id then some (r :: xs)
    else (putRouteById xs r).map (x :: ·)

/-- `addRoute` from tunnel/caddy.ts: ensure the server config, try the per-id
PUT, and on not-found POST the route onto the collection. -/
def addRoute (st : CaddyState) (rid hostname : String) (hostPort : Nat) : CaddyState :=
  match ensureServerConfig st with
  | none => none
  | some rs =>
    let r : CaddyRoute := ⟨rid, hostname, hostPort⟩
    match putRouteById rs r with
    | some rs' => some rs'
    | none => some (rs ++ [r])

/-- `removeRoute` from tunnel/caddy.ts: `DELETE /id/{id}`, not-found is success. -/
def removeRoute (st : CaddyState) (rid : String) : CaddyState :=
  match st with
  | none => none
  | some rs => some (rs.eraseP (fun r => r.id == rid))

/-! ### Gateway results and command errors -/

inductive InspectOutcome
  | found (running : Bool)
  | notFound
  | failure
deriving DecidableEq, Repr

/-- Results of the container-runtime network calls made by the commands.
`inspect` is the response to `inspectContainer`; `containerId` is the id the
runtime returns when the container is created/started. -/
structure RuntimeOracle where
  inspect : String → InspectOutcome
  containerId : String

inductive CmdError
  | notFound (msg : String)
  | conflict (msg : String)
  | validation (msg : String)
  | dbError
  | externalService
deriving DecidableEq, Repr

/-! ### stop (the stop command) and start (commands/start.ts) -/

def stop (db : Db) (st : CaddyState) (envName : String) :
    Db × CaddyState × Except CmdError Unit :=
  match getEnvironmentByName db envName with
  | none => (db, st, .error (.notFound envName))
  | some env =>
    match env.containerId with
    | none => (db, st, .error (.validation envName))
    | some _cid =>
      -- stopContainer(cid) — runtime call, modeled successful
      let db := updateEnvironmentStatus db env.id .stopped
      let pms := getPortMappings db env.id
      let st := pms.foldl (fun s pm => removeRoute s (routeId envName pm.containerPort)) st
      (db, st, .ok ())

def start (db : Db) (st : CaddyState) (envName : String) :
    Db × CaddyState × Except CmdError Unit :=
  match getEnvironmentByName db envName with
  | none => (db, st, .error (.notFound envName))
  | some env =>
    match env.containerId with
    | none => (db, st, .error (.validation envName))
    | some _cid =>
      -- startContainer(cid) — runtime call, modeled successful
      let db := updateEnvironmentStatus db env.id .running
      -- ensureCaddyRunning touches only the caddy container, not the routes
      let pms := getPortMappings db env.id
      let st := pms.foldl
        (fun s pm => addRoute s (routeId envName pm.containerPort) pm.hostname pm.hostPort) st
      (db, st, .ok ())

/-! ### env set (the env command) -/

/-- The line-replacement loop of `envSet`: replace the first line that starts
with `key=` by `key=value`. -/
def replaceFirstLine (lines : List String) (key value : String) : Option (List String) :=
  match lines with
  | [] => none
  | l :: ls =>
    if l.startsWith (key ++ "=") then some ((key ++ "=" ++ value) :: ls)
    else (replaceFirstLine ls key value).map (l :: ·)

/-- The content transformation of `envSet` on the stored `.env` content. -/
def setEnvContent (content key value : String) : String :=
  let lines := content.splitOn "\n"
  match replaceFirstLine lines key value with
  | some newLines => String.intercalate "\n" newLines
  | none =>
    let c := if content.length > 0 && !(content.endsWith "\n") then content ++ "\n"
             else content
    c ++ key ++ "=" ++ value ++ "\n"

/-- The `.env` content lookup of `envSet`: the stored `.env` record's content
or the empty string. -/
def storedEnvContent (db : Db) (envId : Nat) : String :=
  match (getEnvFiles db envId).find? (fun f => f.relativePath == ".env") with
  | some f => f.content
  | none => ""

/-- `envSet` from the env command: split the argument at its first `=`,
look up the environment, rewrite its `.env` file record. -/
def envSet (db : Db) (envName keyValue : String) : Db × Except CmdError Unit :=
  if keyValue.data.any (fun c => c == '=') then
    let key : String := ⟨keyValue.data.takeWhile (fun c => !(c == '='))⟩
    let value : String := ⟨(keyValue.data.dropWhile (fun c => !(c == '='))).tail⟩
    match getEnvironmentByName db envName with
    | none => (db, .error (.notFound envName))
    | some env =>
      let content := storedEnvContent db env.id
      (upsertEnvFile db env.id ".env" (setEnvContent content key value), .ok ())
  else (db, .error (.validation keyValue))

/-! ### create (commands/create.ts) -/

/-- Filesystem/parser inputs of `create`: the repository basename, the repo
path, the branch, the discovered env files (relative path, content), the
forwarded container ports resolved from devcontainer.json, and the serialized
devcontainer config. -/
structure CreateInput where
  repoName : String
  repoPath : String
  branch : String
  envFiles : List (String × String)
  forwardPorts : List Nat
  devcontainerConfig : Option String

/-- The project lookup-or-insert prologue of `create`. -/
def ensureProject (db : Db) (name repoPath : String) : Db × Option Nat :=
  match getProjectByName db name with
  | some p => (db, some p.id)
  | none =>
    match insertProject db name repoPath with
    | some (p, db') => (db', some p.id)
    | none => (db, none)

/-- The `containerActuallyRunning` check of `create`: inspect the stored
container; not-found means not running; any other Docker error propagates. -/
def inspectRunning (oracle : RuntimeOracle) (containerId : Option String) :
    Except CmdError Bool :=
  match containerId with
  | none => .ok false
  | some cid =>
    match oracle.inspect cid with
    | .found r => .ok r
    | .notFound => .ok false
    | .failure => .error .externalService

/-- The existing-environment reconciliation of `create`: a confirmed-running
container is a conflict; a stale `running` status is demoted to `stopped`; an
absent row is inserted.  Returns the environment row used by the rest of the
flow and the `removeExistingContainer` flag. -/
def createReconcile (db : Db) (projectId : Nat) (envName branchName : String)
    (worktreePath : Option String) (cfg : Option String) (oracle : RuntimeOracle) :
    Db × Except CmdError (Environment × Bool) :=
  match getEnvironmentByName db envName with
  | some env =>
    if env.status = .running then
      match inspectRunning oracle env.containerId with
      | .error e => (db, .error e)
      | .ok true => (db, .error (.conflict envName))
      | .ok false => (updateEnvironmentStatus db env.id .stopped, .ok (env, true))
    else (db, .ok (env, true))
  | none =>
    match insertEnvironment db projectId envName branchName worktreePath cfg with
    | some (env, db') => (db', .ok (env, false))
    | none => (db, .error .dbError)

def upsertEnvFiles (db : Db) (envId : Nat) (files : List (String × String)) : Db :=
  files.foldl (fun d f => upsertEnvFile d envId f.1 f.2) db

/-- The port-allocation loop of `create`/`branch`: for each forwarded
container port take the next available host port, derive the hostname and
persist the mapping.  Returns the db (with all rows persisted before a
failure) and, on success, the `(containerPort, hostPort, hostname)` list. -/
def allocPorts (db : Db) (envId : Nat) (projectName branchName : String)
    (ports : List Nat) : Db × Option (List (Nat × Nat × String)) :=
  match ports with
  | [] => (db, some [])
  | cp :: rest =>
    let hp := getNextAvailableHostPort db
    let hn := generateHostname projectName branchName (some cp)
    match insertPortMapping db envId cp hp hn with
    | none => (db, none)
    | some (_, db') =>
      match allocPorts db' envId projectName branchName rest with
      | (dbf, none) => (dbf, none)
      | (dbf, some pms) => (dbf, some ((cp, hp, hn) :: pms))

/-- Everything `create` does to the store before its first container-runtime
step (`devcontainerUp`): ensure the project, reconcile/insert the
environment, upsert the discovered env files, delete all existing port
mappings for this environment, and reallocate them. -/
def createDbPhase (db : Db) (inp : CreateInput) (oracle : RuntimeOracle) :
    Db × Except CmdError (Environment × Bool × List (Nat × Nat × String)) :=
  let projectName := slugify inp.repoName
  let envName := projectName ++ "-" ++ slugify inp.branch
  let worktreePath := inp.repoPath ++ "/.devenv/worktrees/" ++ inp.branch
  match ensureProject db projectName inp.repoPath with
  | (db, none) => (db, .error .dbError)
  | (db, some projectId) =>
    match createReconcile db projectId envName inp.branch (some worktreePath)
        inp.devcontainerConfig oracle with
    | (db, .error e) => (db, .error e)
    | (db, .ok (env, removeExisting)) =>
      let db := upsertEnvFiles db env.id inp.envFiles
      let db := deletePortMappings db env.id
      match allocPorts db env.id projectName inp.branch inp.forwardPorts with
      | (db, none) => (db, .error .dbError)
      | (db, some pms) => (db, .ok (env, removeExisting, pms))

structure CreateOk where
  envId : Nat
  envName : String
  containerId : String
  removeExisting : Bool
  portMappings : List (Nat × Nat × String)
deriving DecidableEq, Repr

/-- The route-registration loop shared by `create` and `branch`. -/
def addRoutes (st : CaddyState) (envName : String)
    (pms : List (Nat × Nat × String)) : CaddyState :=
  pms.foldl (fun s pm => addRoute s (routeId envName pm.1) pm.2.2 pm.2.1) st

/-- The full `create` command: the store phase, then `devcontainerUp`
(which receives the `removeExistingContainer` flag and returns the container
id), recording the container id, setting status `running`, and registering
the routes. -/
def create (db : Db) (st : CaddyState) (inp : CreateInput) (oracle : RuntimeOracle) :
    Db × CaddyState × Except CmdError CreateOk :=
  let envName := slugify inp.repoName ++ "-" ++ slugify inp.branch
  match createDbPhase db inp oracle with
  | (db', .error e) => (db', st, .error e)
  | (db', .ok (env, removeExisting, pms)) =>
    let cid := oracle.containerId
    let db'' := updateEnvironmentStatus (updateEnvironmentContainer db' env.id cid)
      env.id .running
    let st' := addRoutes st envName pms
    (db'', st', .ok ⟨env.id, envName, cid, removeExisting, pms⟩)

/-! ### branch (the branch command, commands/shell.ts file) -/

structure BranchOk where
  newEnvId : Nat
  newEnvName : String
  portMappings : List (Nat × Nat × String)
deriving DecidableEq, Repr

/-- The `branch` command: look up the source environment and its project,
derive the new environment name, insert the new environment row reusing the
source's devcontainer config, copy the source's env files, allocate fresh
ports and hostnames, create the container, register routes, start it and set
status `running`.  `forwardPorts` are the ports resolved from the source's
stored devcontainer config. -/
def branch (db : Db) (st : CaddyState) (envName newBranch : String)
    (forwardPorts : List Nat) (oracle : RuntimeOracle) :
    Db × CaddyState × Except CmdError BranchOk :=
  match getEnvironmentByName db envName with
  | none => (db, st, .error (.notFound envName))
  | some sourceEnv =>
    match getProjectById db sourceEnv.projectId with
    | none => (db, st, .error (.notFound envName))
    | some project =>
      let projectName := project.name
      let newEnvName := projectName ++ "-" ++ slugify newBranch
      let worktreePath := project.repoPath ++ "/.devenv/worktrees/" ++ newBranch
      match insertEnvironment db sourceEnv.projectId newEnvName newBranch
          (some worktreePath) sourceEnv.devcontainerConfig with
      | none => (db, st, .error .dbError)
      | some (newEnv, db) =>
        let sourceFiles := getEnvFiles db sourceEnv.id
        let db := sourceFiles.foldl
          (fun d f => upsertEnvFile d newEnv.id f.relativePath f.content) db
        -- pullImage — runtime call, modeled successful
        match allocPorts db newEnv.id projectName newBranch forwardPorts with
        | (db, none) => (db, st, .error .dbError)
        | (db, some pms) =>
          -- createContainer returns the container id
          let cid := oracle.containerId
          let db := updateEnvironmentContainer db newEnv.id cid
          -- ensureCaddyRunning, then addRoute per mapping
          let st := addRoutes st newEnvName pms
          -- startContainer — runtime call, modeled successful
          let db := updateEnvironmentStatus db newEnv.id .running
          (db, st, .ok ⟨newEnv.id, newEnvName, pms⟩)

/-! ### General list helpers -/

theorem insertSorted_perm {α} (le : α → α → Bool) (x : α) (l : List α) :
    List.Perm (insertSorted le x l) (x :: l) := by
  induction l with
  | nil => simp [insertSorted]
  | cons y ys ih =>
    simp only [insertSorted]
    split
    · exact List.Perm.refl _
    · exact ((ih.cons y).trans (List.Perm.swap x y ys))

theorem sortBy_perm {α} (le : α → α → Bool) (l : List α) :
    List.Perm (sortBy le l) l := by
  induction l with
  | nil => simp [sortBy]
  | cons x xs ih => exact (insertSorted_perm le x (sortBy le xs)).trans (ih.cons x)

theorem dropWhile_append_of_all {α} (p : α → Bool) {xs : List α} (y : α) (ys : List α)
    (hx : ∀ c ∈ xs, p c = true) (hy : p y = false) :
    (xs ++ y :: ys).dropWhile p = y :: ys := by
  induction xs with
  | nil => simp [List.dropWhile, hy]
  | cons a l ih =>
    have ha : p a = true := hx a (by simp)
    simp only [List.cons_append, List.dropWhile, ha]
    exact ih (fun c hc => hx c (by simp [hc]))

theorem find?_eq_of_unique {α} {p : α → Bool} {l : List α} {x : α}
    (hcount : l.countP p ≤ 1) (hmem : x ∈ l) (hx : p x = true) :
    l.find? p = some x := by
  induction l with
  | nil => cases hmem
  | cons a t ih =>
    by_cases ha : p a = true
    · rw [List.find?_cons_of_pos _ ha]
      rcases List.mem_cons.1 hmem with rfl | hxt
      · rfl
      · exfalso
        have h1 : 0 < t.countP p := List.countP_pos_iff.2 ⟨x, hxt, hx⟩
        rw [List.countP_cons_of_pos p t ha] at hcount
        omega
    · have ha' : p a = false := by simpa using ha
      rw [List.find?_cons_of_neg _ (by simp [ha'])]
      rcases List.mem_cons.1 hmem with rfl | hxt
      · exact absurd hx (by simp [ha'])
      · refine ih ?_ hxt
        rw [List.countP_cons_of_neg p t (by simp [ha'])] at hcount
        exact hcount

theorem filter_eq_singleton_of_unique {α} {p : α → Bool} {l : List α} {x : α}
    (hcount : l.countP p ≤ 1) (hmem : x ∈ l) (hx : p x = true) :
    l.filter p = [x] := by
  induction l with
  | nil => cases hmem
  | cons a t ih =>
    by_cases ha : p a = true
    · rcases List.mem_cons.1 hmem with rfl | hxt
      · have ht : t.countP p = 0 := by
          rw [List.countP_cons_of_pos p t ha] at hcount; omega
        have : t.filter p = [] := by
          rw [List.filter_eq_nil_iff]
          intro b hb hpb
          have : 0 < t.countP p := List.countP_pos_iff.2 ⟨b, hb, hpb⟩
          omega
        simp [List.filter_cons_of_pos ha, this]
      · exfalso
        have h1 : 0 < t.countP p := List.countP_pos_iff.2 ⟨x, hxt, hx⟩
        rw [List.countP_cons_of_pos p t ha] at hcount
        omega
    · have ha' : p a = false := by simpa using ha
      rcases List.mem_cons.1 hmem with rfl | hxt
      · exact absurd hx (by simp [ha'])
      · rw [List.filter_cons_of_neg (by simp [ha'])]
        refine ih ?_ hxt
        rw [List.countP_cons_of_neg p t (by simp [ha'])] at hcount
        exact hcount

/-! ### Route synchronizer lemmas -/

theorem putRouteById_eq_none {l : List CaddyRoute} {r : CaddyRoute}
    (h : ∀ x ∈ l, x.id ≠ r.id) : putRouteById l r = none := by
  induction l with
  | nil => rfl
  | cons x xs ih =>
    simp only [putRouteById]
    rw [if_neg (h x (by simp)), ih (fun y hy => h y (by simp [hy]))]
    rfl

theorem putRouteById_none_forall {rs : List CaddyRoute} {r : CaddyRoute}
    (h : putRouteById rs r = none) : ∀ x ∈ rs, x.id ≠ r.id := by
  induction rs with
  | nil => intro x hx; cases hx
  | cons x xs ih =>
    simp only [putRouteById] at h
    intro y hy
    by_cases hx : x.id = r.id
    · rw [if_pos hx] at h; cases h
    · rw [if_neg hx] at h
      rcases List.mem_cons.1 hy with rfl | hyt
      · exact hx
      · cases hp : putRouteById xs r with
        | none => exact ih hp y hyt
        | some ys => rw [hp] at h; cases h

theorem putRouteById_self {rs rs' : List CaddyRoute} {r : CaddyRoute}
    (h : putRouteById rs r = some rs') : putRouteById rs' r = some rs' := by
  induction rs generalizing rs' with
  | nil => cases h
  | cons x xs ih =>
    simp only [putRouteById] at h
    by_cases hx : x.id = r.id
    · rw [if_pos hx] at h
      cases h
      simp [putRouteById]
    · rw [if_neg hx] at h
      cases hp : putRouteById xs r with
      | none => rw [hp] at h; cases h
      | some ys =>
        rw [hp] at h
        simp only [Option.map_some'] at h
        cases h
        simp only [putRouteById]
        rw [if_neg hx, ih hp]
        rfl

theorem putRouteById_append_self {rs : List CaddyRoute} {r : CaddyRoute}
    (h : ∀ x ∈ rs, x.id ≠ r.id) : putRouteById (rs ++ [r]) r = some (rs ++ [r]) := by
  induction rs with
  | nil => simp [putRouteById]
  | cons x xs ih =>
    simp only [List.cons_append, putRouteById, List.append_eq]
    rw [if_neg (h x (by simp)), ih (fun y hy => h y (by simp [hy]))]
    rfl

/-- The behavior of `addRoute` on an initialized collection: per-id PUT,
falling back to POST-append on not-found. -/
theorem addRoute_some_eq (rs : List CaddyRoute) (rid hn : String) (hp : Nat) :
    addRoute (some rs) rid hn hp
      = match putRouteById rs ⟨rid, hn, hp⟩ with
        | some rs' => some rs'
        | none => some (rs ++ [⟨rid, hn, hp⟩]) := rfl

theorem putRouteById_filter {rs rs' : List CaddyRoute} {r : CaddyRoute}
    (h : putRouteById rs r = some rs')
    (hc : rs.countP (fun x => x.id == r.id) ≤ 1) :
    rs'.filter (fun x => x.id == r.id) = [r] := by
  induction rs generalizing rs' with
  | nil => cases h
  | cons x xs ih =>
    simp only [putRouteById] at h
    by_cases hx : x.id = r.id
    · rw [if_pos hx] at h
      cases h
      rw [List.countP_cons_of_pos _ xs (by simp [hx])] at hc
      have hnil : xs.filter (fun y => y.id == r.id) = [] := by
        rw [List.filter_eq_nil_iff]
        intro b hb hpb
        have : 0 < xs.countP (fun y => y.id == r.id) :=
          List.countP_pos_iff.2 ⟨b, hb, hpb⟩
        omega
      rw [List.filter_cons_of_pos (by simp), hnil]
    · rw [if_neg hx] at h
      cases hp : putRouteById xs r with
      | none => rw [hp] at h; cases h
      | some ys =>
        rw [hp] at h
        simp only [Option.map_some'] at h
        cases h
        rw [List.countP_cons_of_neg _ xs (by simp [hx])] at hc
        rw [List.filter_cons_of_neg (by simp [hx])]
        exact ih hp hc

/-- C5: `upsertRoute` (addRoute) is idempotent: against the proxy admin API —
whose per-id PUT only updates existing objects and reports not-found
otherwise — calling it twice with identical `(id, hostname, hostPort)` gives
the same end state as calling it once, and leaves exactly one route
registered under that id, with that configuration. -/
theorem addRoute_idempotent (st : CaddyState) (rid hn : String) (hp : Nat)
    (hcount : ∀ rs, st = some rs → rs.countP (fun r => r.id == rid) ≤ 1) :
    addRoute (addRoute st rid hn hp) rid hn hp = addRoute st rid hn hp ∧
    ∃ rs', addRoute st rid hn hp = some rs' ∧
      rs'.filter (fun r => r.id == rid) = [⟨rid, hn, hp⟩] := by
  have hsome : ∀ (rs : List CaddyRoute),
      addRoute (some rs) rid hn hp =
        match putRouteById rs ⟨rid, hn, hp⟩ with
        | some rs' => some rs'
        | none => some (rs ++ [⟨rid, hn, hp⟩]) := fun _ => rfl
  have key : ∀ (rs : List CaddyRoute), rs.countP (fun r => r.id == rid) ≤ 1 →
      addRoute (addRoute (some rs) rid hn hp) rid hn hp
        = addRoute (some rs) rid hn hp ∧
      ∃ rs', addRoute (some rs) rid hn hp = some rs' ∧
        rs'.filter (fun r => r.id == rid) = [⟨rid, hn, hp⟩] := by
    intro rs hc
    cases hput : putRouteById rs ⟨rid, hn, hp⟩ with
    | some rs' =>
      have h1 : addRoute (some rs) rid hn hp = some rs' := by
        rw [hsome, hput]
      have h2 : addRoute (some rs') rid hn hp = some rs' := by
        rw [hsome, putRouteById_self hput]
      refine ⟨by rw [h1, h2], rs', h1, ?_⟩
      exact putRouteById_filter hput hc
    | none =>
      have hall := putRouteById_none_forall hput
      have h1 : addRoute (some rs) rid hn hp = some (rs ++ [⟨rid, hn, hp⟩]) := by
        rw [hsome, hput]
      have h2 : addRoute (some (rs ++ [⟨rid, hn, hp⟩])) rid hn hp
          = some (rs ++ [⟨rid, hn, hp⟩]) := by
        rw [hsome, putRouteById_append_self hall]
      refine ⟨by rw [h1, h2], rs ++ [⟨rid, hn, hp⟩], h1, ?_⟩
      rw [List.filter_append]
      have hnil : rs.filter (fun r => r.id == rid) = [] := by
        rw [List.filter_eq_nil_iff]
        intro b hb
        simpa using hall b hb
      simp [hnil]
  cases st with
  | none =>
    have hnone : addRoute (none : CaddyState) rid hn hp = addRoute (some []) rid hn hp := rfl
    rw [hnone]
    exact key [] (by simp)
  | some rs => exact key rs (hcount rs rfl)

/-- Closed witness for `addRoute_idempotent` at the never-initialized state. -/
theorem addRoute_idempotent_witness :
    addRoute (addRoute (none : CaddyState) "devenv-demo-main-3000"
        "demo-main.localhost" 49200) "devenv-demo-main-3000"
        "demo-main.localhost" 49200
      = addRoute (none : CaddyState) "devenv-demo-main-3000"
        "demo-main.localhost" 49200 ∧
    ∃ rs', addRoute (none : CaddyState) "devenv-demo-main-3000"
        "demo-main.localhost" 49200 = some rs' ∧
      rs'.filter (fun r => r.id == "devenv-demo-main-3000")
        = [⟨"devenv-demo-main-3000", "demo-main.localhost", 49200⟩] :=
  addRoute_idempotent none "devenv-demo-main-3000" "demo-main.localhost" 49200
    (fun _rs h => nomatch h)

/-! ### C6: getNextAvailableHostPort -/

theorem foldr_max_le {P : Nat} : ∀ {xs : List Nat}, (∀ q ∈ xs, q ≤ P) →
    xs.foldr max 0 ≤ P := by
  intro xs
  induction xs with
  | nil => intro _; exact Nat.zero_le P
  | cons a t ih =>
    intro h
    simp only [List.foldr_cons]
    exact Nat.max_le.2 ⟨h a (by simp), ih (fun q hq => h q (by simp [hq]))⟩

theorem foldr_max_eq {P : Nat} : ∀ {xs : List Nat}, P ∈ xs → (∀ q ∈ xs, q ≤ P) →
    xs.foldr max 0 = P := by
  intro xs
  induction xs with
  | nil => intro h; cases h
  | cons a t ih =>
    intro hmem hle
    simp only [List.foldr_cons]
    rcases List.mem_cons.1 hmem with rfl | hPt
    · exact Nat.max_eq_left (foldr_max_le (fun q hq => hle q (by simp [hq])))
    · rw [ih hPt (fun q hq => hle q (by simp [hq]))]
      exact Nat.max_eq_right (hle a (by simp))

/-- A store with one persisted mapping whose hostPort is 0. -/
def dbPortZero : Db :=
  { projects := [⟨1, "p", "/r"⟩],
    environments := [⟨1, 1, "p-b", "b", .created, none, none, none⟩],
    envFiles := [],
    portMappings := [⟨1, 1, 3000, 0, "p-b.localhost"⟩],
    nextProjectId := 2, nextEnvironmentId := 2, nextEnvFileId := 1,
    nextPortMappingId := 2 }

/-- C6 counterexample: a store with one mapping whose hostPort is 0 — SQL MAX
is 0, which the JS truthiness check treats like the empty table, so the
function returns the range start instead of max + 1. -/
theorem getNextAvailableHostPort_counterexample :
    dbPortZero.portMappings.map (fun m => m.hostPort) = [0] ∧
    getNextAvailableHostPort dbPortZero = HOST_PORT_RANGE_START ∧
    getNextAvailableHostPort dbPortZero ≠ 0 + 1 := by decide

/-- C6 (amended): `getNextAvailableHostPort` returns the range-start constant
when no port mappings exist; when the maximum existing hostPort P is
positive it returns P + 1 (a maximum of 0 is treated like the empty store by
the SQL-NULL/zero truthiness check); in particular after a mapping with
hostPort P is inserted, P positive and above every existing hostPort, the
next call returns P + 1. -/
theorem getNextAvailableHostPort_spec (db : Db) :
    (db.portMappings = [] → getNextAvailableHostPort db = HOST_PORT_RANGE_START) ∧
    (∀ P, 0 < P → P ∈ db.portMappings.map (fun m => m.hostPort) →
      (∀ q ∈ db.portMappings.map (fun m => m.hostPort), q ≤ P) →
      getNextAvailableHostPort db = P + 1) ∧
    (∀ envId cp P hn pm db', 0 < P →
      (∀ q ∈ db.portMappings.map (fun m => m.hostPort), q ≤ P) →
      insertPortMapping db envId cp P hn = some (pm, db') →
      getNextAvailableHostPort db' = P + 1) := by
  refine ⟨?_, ?_, ?_⟩
  · intro h
    simp [getNextAvailableHostPort, h]
  · intro P hpos hmem hle
    simp only [getNextAvailableHostPort]
    rw [foldr_max_eq hmem hle]
    simp [Nat.pos_iff_ne_zero.1 hpos]
  · intro envId cp P hn pm db' hpos hle hins
    unfold insertPortMapping at hins
    split at hins
    · cases hins
    · simp only [Option.some_inj, Prod.mk.injEq] at hins
      have hdb : db'.portMappings = db.portMappings ++
          [⟨db.nextPortMappingId, envId, cp, P, hn⟩] := by
        rw [← hins.2]
      have hmap : db'.portMappings.map (fun m => m.hostPort)
          = db.portMappings.map (fun m => m.hostPort) ++ [P] := by
        simp [hdb]
      have hfold : (db'.portMappings.map (fun m => m.hostPort)).foldr max 0 = P := by
        rw [hmap]
        refine foldr_max_eq (by simp) ?_
        intro q hq
        rcases List.mem_append.1 hq with h | h
        · exact hle q h
        · simp only [List.mem_singleton] at h
          omega
      simp only [getNextAvailableHostPort]
      rw [hfold]
      simp [Nat.pos_iff_ne_zero.1 hpos]

/-- A store with one persisted mapping at the range start. -/
def dbOnePort : Db :=
  { projects := [⟨1, "p", "/r"⟩],
    environments := [⟨1, 1, "p-b", "b", .created, none, none, none⟩],
    envFiles := [],
    portMappings := [⟨1, 1, 3000, 49200, "p-b.localhost"⟩],
    nextProjectId := 2, nextEnvironmentId := 2, nextEnvFileId := 1,
    nextPortMappingId := 2 }

/-- Closed witness for `getNextAvailableHostPort_spec`. -/
theorem getNextAvailableHostPort_spec_witness :
    getNextAvailableHostPort emptyDb = HOST_PORT_RANGE_START ∧
    getNextAvailableHostPort dbOnePort = 49201 :=
  ⟨(getNextAvailableHostPort_spec emptyDb).1 rfl,
   (getNextAvailableHostPort_spec dbOnePort).2.1 49200 (by decide) (by decide)
     (by decide)⟩

/-! ### C7: hostname generation and the demo/main create scenario -/

/-- C7: `generateHostname` is a deterministic function of exactly
(project, branch, port), with the numeric port suffix elided exactly when
the port is the default container port 3000; and `create` for
(project "demo", branch "main") with one forwarded container port 3000 on
the empty store yields the single PortMapping
`{containerPort := 3000, hostPort := 49200, hostname := "demo-main.localhost"}`
and an environment `demo-main` with status running. -/
theorem generateHostname_spec_and_create_demo_scenario :
    (∀ (pr br : String) (p : Nat),
      generateHostname pr br (some p)
        = pr ++ "-" ++ br ++
            (if p = DEFAULT_CONTAINER_PORT then "" else "-" ++ natStr p)
            ++ LOCALHOST_SUFFIX) ∧
    (∀ oracle : RuntimeOracle,
      (create emptyDb none ⟨"demo", "/repo", "main", [], [3000], none⟩
          oracle).1.portMappings
        = [⟨1, 1, 3000, 49200, "demo-main.localhost"⟩] ∧
      (create emptyDb none ⟨"demo", "/repo", "main", [], [3000], none⟩
          oracle).2.2
        = .ok ⟨1, "demo-main", oracle.containerId, false,
            [(3000, 49200, "demo-main.localhost")]⟩ ∧
      getEnvironmentByName
          (create emptyDb none ⟨"demo", "/repo", "main", [], [3000], none⟩
            oracle).1 "demo-main"
        = some ⟨1, 1, "demo-main", "main", .running, some oracle.containerId,
            some "/repo/.devenv/worktrees/main", none⟩) := by
  constructor
  · intro pr br p
    by_cases h : p = DEFAULT_CONTAINER_PORT <;> simp [generateHostname, h]
  · intro oracle
    exact ⟨rfl, rfl, rfl⟩

/-! ### Environment lookup after status updates -/

theorem getEnvironmentByName_updateStatus (db : Db) (id : Nat) (s : EnvStatus)
    (name : String) :
    getEnvironmentByName (updateEnvironmentStatus db id s) name
      = (getEnvironmentByName db name).map
          (fun e => if e.id = id then { e with status := s } else e) := by
  unfold getEnvironmentByName updateEnvironmentStatus
  rw [List.find?_map]
  have hpred : ((fun e : Environment => e.name == name) ∘ fun e =>
      if e.id = id then { e with status := s } else e)
      = (fun e : Environment => e.name == name) := by
    funext e
    by_cases h : e.id = id <;> simp [h, Function.comp]
  rw [hpred]

theorem ensureProject_of_found {db : Db} {n rp : String} {p : Project}
    (h : getProjectByName db n = some p) : ensureProject db n rp = (db, some p.id) := by
  unfold ensureProject
  rw [h]

/-! ### C3: create on a confirmed-running environment -/

/-- C3: when an environment recorded `running` is confirmed running by the
container runtime, `create` fails with the Conflict error and performs no
mutation: the returned store and route state are exactly the inputs. -/
theorem create_conflict_no_mutation (db : Db) (st : CaddyState) (inp : CreateInput)
    (oracle : RuntimeOracle) (env : Environment) (cid : String)
    (hproj : (getProjectByName db (slugify inp.repoName)).isSome = true)
    (henv : getEnvironmentByName db
        (slugify inp.repoName ++ "-" ++ slugify inp.branch) = some env)
    (hrun : env.status = .running)
    (hcid : env.containerId = some cid)
    (hinsp : oracle.inspect cid = .found true) :
    create db st inp oracle
      = (db, st, .error (.conflict (slugify inp.repoName ++ "-" ++ slugify inp.branch))) := by
  obtain ⟨p, hp⟩ := Option.isSome_iff_exists.mp hproj
  have hphase : createDbPhase db inp oracle
      = (db, .error (.conflict (slugify inp.repoName ++ "-" ++ slugify inp.branch))) := by
    simp [createDbPhase, ensureProject_of_found hp, createReconcile, henv, hrun,
      inspectRunning, hcid, hinsp]
  simp only [create]
  rw [hphase]

/-- A store with a project, a `running` environment with a stored container,
and no port mappings. -/
def dbRunning : Db :=
  { projects := [⟨1, "demo", "/repo"⟩],
    environments := [⟨1, 1, "demo-main", "main", .running, some "c1", none, none⟩],
    envFiles := [],
    portMappings := [],
    nextProjectId := 2, nextEnvironmentId := 2, nextEnvFileId := 1,
    nextPortMappingId := 2 }

def inpDemo : CreateInput := ⟨"demo", "/repo", "main", [], [3000], none⟩

def oracleRunning : RuntimeOracle := ⟨fun _ => .found true, "c2"⟩

/-- Closed witness for `create_conflict_no_mutation`. -/
theorem create_conflict_no_mutation_witness :
    create dbRunning none inpDemo oracleRunning
      = (dbRunning, none, .error (.conflict (slugify "demo" ++ "-" ++ slugify "main"))) :=
  create_conflict_no_mutation dbRunning none inpDemo oracleRunning
    ⟨1, 1, "demo-main", "main", .running, some "c1", none, none⟩ "c1"
    (by decide) (by decide) rfl rfl rfl

/-! ### C4: create on a stale running environment -/

theorem create_conflict_source {db : Db} {st : CaddyState} {inp : CreateInput}
    {oracle : RuntimeOracle} {s : String}
    (h : (create db st inp oracle).2.2 = .error (.conflict s)) :
    (createDbPhase db inp oracle).2 = .error (.conflict s) := by
  unfold create at h
  split at h
  · simp_all
  · simp at h

theorem createDbPhase_conflict_source {db : Db} {inp : CreateInput}
    {oracle : RuntimeOracle} {s : String}
    (h : (createDbPhase db inp oracle).2 = .error (.conflict s)) :
    ∃ db1 pid,
      ensureProject db (slugify inp.repoName) inp.repoPath = (db1, some pid) ∧
      (createReconcile db1 pid (slugify inp.repoName ++ "-" ++ slugify inp.branch)
        inp.branch (some (inp.repoPath ++ "/.devenv/worktrees/" ++ inp.branch))
        inp.devcontainerConfig oracle).2 = .error (.conflict s) := by
  unfold createDbPhase at h
  dsimp only [] at h
  split at h
  · simp at h
  · rename_i db1 pid heq
    refine ⟨db1, pid, heq, ?_⟩
    split at h
    · rename_i heq2
      rw [heq2]
      simp at h
      simp [h]
    · split at h <;> simp at h

/-- C4: `create` on an environment recorded `running`, when the runtime
reports the container gone (not-found), not running, or when no containerId
is stored, demotes the recorded status to `stopped` and continues the create
flow with `removeExistingContainer = true` instead of rejecting: the
reconcile step succeeds with the demoted store, the stored row becomes
`stopped`, and the command never fails with a Conflict error. -/
theorem create_stale_running_demotes (db : Db) (st : CaddyState) (inp : CreateInput)
    (oracle : RuntimeOracle) (env : Environment) (p : Project)
    (hproj : getProjectByName db (slugify inp.repoName) = some p)
    (henv : getEnvironmentByName db
        (slugify inp.repoName ++ "-" ++ slugify inp.branch) = some env)
    (hrun : env.status = .running)
    (hstale : env.containerId = none ∨
      ∃ cid, env.containerId = some cid ∧
        (oracle.inspect cid = .notFound ∨ oracle.inspect cid = .found false)) :
    createReconcile db p.id (slugify inp.repoName ++ "-" ++ slugify inp.branch)
        inp.branch (some (inp.repoPath ++ "/.devenv/worktrees/" ++ inp.branch))
        inp.devcontainerConfig oracle
      = (updateEnvironmentStatus db env.id .stopped, .ok (env, true)) ∧
    getEnvironmentByName (updateEnvironmentStatus db env.id .stopped)
        (slugify inp.repoName ++ "-" ++ slugify inp.branch)
      = some { env with status := .stopped } ∧
    ∀ s, (create db st inp oracle).2.2 ≠ .error (.conflict s) := by
  have hins : inspectRunning oracle env.containerId = .ok false := by
    rcases hstale with h | ⟨cid, hcid, hi⟩
    · simp [inspectRunning, h]
    · rcases hi with hi | hi <;> simp [inspectRunning, hcid, hi]
  have hrec : ∀ pid wt cfg,
      createReconcile db pid (slugify inp.repoName ++ "-" ++ slugify inp.branch)
        inp.branch wt cfg oracle
      = (updateEnvironmentStatus db env.id .stopped, .ok (env, true)) := by
    intro pid wt cfg
    simp [createReconcile, henv, hrun, hins]
  refine ⟨hrec p.id _ _, ?_, ?_⟩
  · rw [getEnvironmentByName_updateStatus, henv]
    simp
  · intro s hcon
    obtain ⟨db1, pid, hep, hrc⟩ :=
      createDbPhase_conflict_source (create_conflict_source hcon)
    rw [ensureProject_of_found hproj] at hep
    have hdb1 : db1 = db := by
      have := congrArg Prod.fst hep
      simpa using this.symm
    subst hdb1
    rw [hrec pid _ _] at hrc
    simp at hrc

def oracleGone : RuntimeOracle := ⟨fun _ => .notFound, "c2"⟩

/-- Closed witness for `create_stale_running_demotes`. -/
theorem create_stale_running_demotes_witness :
    createReconcile dbRunning 1 (slugify "demo" ++ "-" ++ slugify "main")
        "main" (some ("/repo" ++ "/.devenv/worktrees/" ++ "main")) none oracleGone
      = (updateEnvironmentStatus dbRunning 1 .stopped,
         .ok (⟨1, 1, "demo-main", "main", .running, some "c1", none, none⟩, true)) ∧
    getEnvironmentByName (updateEnvironmentStatus dbRunning 1 .stopped)
        (slugify "demo" ++ "-" ++ slugify "main")
      = some ⟨1, 1, "demo-main", "main", .stopped, some "c1", none, none⟩ ∧
    ∀ s, (create dbRunning none inpDemo oracleGone).2.2 ≠ .error (.conflict s) :=
  create_stale_running_demotes dbRunning none inpDemo oracleGone
    ⟨1, 1, "demo-main", "main", .running, some "c1", none, none⟩ ⟨1, "demo", "/repo"⟩
    (by decide) (by decide) rfl (Or.inr ⟨"c1", rfl, Or.inl rfl⟩)

/-! ### C10: envSet frame lemmas -/

theorem countP_le_one_of_nodup {α β} [DecidableEq β] {l : List α} {k : α → β}
    {p : α → Bool} (hn : (l.map k).Nodup)
    (hp : ∀ x ∈ l, ∀ y ∈ l, p x = true → p y = true → k x = k y) :
    l.countP p ≤ 1 := by
  induction l with
  | nil => simp
  | cons a t ih =>
    rw [List.map_cons] at hn
    have hn' := List.nodup_cons.1 hn
    by_cases ha : p a = true
    · rw [List.countP_cons_of_pos p t ha]
      have ht : t.countP p = 0 := by
        by_contra hne
        obtain ⟨x, hx, hpx⟩ := List.countP_pos_iff.1 (Nat.pos_of_ne_zero hne)
        refine hn'.1 ?_
        rw [hp a (by simp) x (by simp [hx]) ha hpx]
        exact List.mem_map_of_mem k hx
      omega
    · rw [List.countP_cons_of_neg p t (by simpa using ha)]
      exact ih hn'.2 (fun x hx y hy => hp x (by simp [hx]) y (by simp [hy]))

theorem replaceFirstLine_none_iff {lines : List String} {key value : String} :
    replaceFirstLine lines key value = none ↔
      ∀ l ∈ lines, ¬ l.startsWith (key ++ "=") := by
  induction lines with
  | nil => simp [replaceFirstLine]
  | cons l ls ih =>
    simp only [replaceFirstLine]
    by_cases h : l.startsWith (key ++ "=")
    · rw [if_pos h]
      simp [h]
    · rw [if_neg h]
      constructor
      · intro hmap l' hl'
        rcases List.mem_cons.1 hl' with rfl | hm
        · exact fun hh => h (by simpa using hh)
        · have hnone : replaceFirstLine ls key value = none := by
            cases hr : replaceFirstLine ls key value with
            | none => rfl
            | some o => rw [hr] at hmap; cases hmap
          exact ih.1 hnone l' hm
      · intro hall
        rw [ih.2 (fun l' hl' => hall l' (by simp [hl']))]
        rfl

theorem replaceFirstLine_some {lines : List String} {key value : String}
    {out : List String} (h : replaceFirstLine lines key value = some out) :
    ∃ i, ∃ hi : i < lines.length,
      (lines.get ⟨i, hi⟩).startsWith (key ++ "=") = true ∧
      (∀ j (hj : j < lines.length), j < i →
        ¬ (lines.get ⟨j, hj⟩).startsWith (key ++ "=")) ∧
      out = lines.set i (key ++ "=" ++ value) := by
  induction lines generalizing out with
  | nil => cases h
  | cons l ls ih =>
    simp only [replaceFirstLine] at h
    by_cases hl : l.startsWith (key ++ "=")
    · rw [if_pos hl] at h
      cases h
      exact ⟨0, by simp, hl, fun j hj hji => absurd hji (by omega), by simp⟩
    · rw [if_neg hl] at h
      cases hr : replaceFirstLine ls key value with
      | none => rw [hr] at h; cases h
      | some o =>
        rw [hr] at h
        simp only [Option.map_some'] at h
        cases h
        obtain ⟨i, hi, hstart, hbefore, ho⟩ := ih hr
        refine ⟨i + 1, by simpa using Nat.succ_lt_succ hi, by simpa using hstart,
          ?_, by simp [ho]⟩
        intro j hj hji
        cases j with
        | zero => simpa using hl
        | succ j' =>
          have := hbefore j' (by simpa using hj) (by omega)
          simpa using this

/-- The two behaviors of the `envSet` content transformation: replace the
first `key=`-prefixed line in place, or append `key=value` with a trailing
newline (ensuring the previous content ends with a newline first). -/
theorem setEnvContent_spec (content key value : String) :
    (∃ i, ∃ hi : i < (content.splitOn "\n").length,
        ((content.splitOn "\n").get ⟨i, hi⟩).startsWith (key ++ "=") = true ∧
        (∀ j (hj : j < (content.splitOn "\n").length), j < i →
          ¬ ((content.splitOn "\n").get ⟨j, hj⟩).startsWith (key ++ "=")) ∧
        setEnvContent content key value
          = String.intercalate "\n"
              ((content.splitOn "\n").set i (key ++ "=" ++ value))) ∨
    ((∀ l ∈ content.splitOn "\n", ¬ l.startsWith (key ++ "=")) ∧
      setEnvContent content key value
        = (if content.length > 0 && !(content.endsWith "\n") then content ++ "\n"
           else content) ++ key ++ "=" ++ value ++ "\n") := by
  unfold setEnvContent
  dsimp only []
  cases hr : replaceFirstLine (content.splitOn "\n") key value with
  | some out =>
    left
    obtain ⟨i, hi, h1, h2, h3⟩ := replaceFirstLine_some hr
    exact ⟨i, hi, h1, h2, by rw [h3]⟩
  | none =>
    right
    exact ⟨replaceFirstLine_none_iff.1 hr, rfl⟩

theorem upsertEnvFile_frame_fields (db : Db) (e : Nat) (p c : String) :
    (upsertEnvFile db e p c).projects = db.projects ∧
    (upsertEnvFile db e p c).environments = db.environments ∧
    (upsertEnvFile db e p c).portMappings = db.portMappings := by
  unfold upsertEnvFile
  split <;> exact ⟨rfl, rfl, rfl⟩

theorem upsertEnvFile_filter_ne (db : Db) (e : Nat) (p c : String) (eid : Nat)
    (h : eid ≠ e) :
    (upsertEnvFile db e p c).envFiles.filter (fun f => f.environmentId == eid)
      = db.envFiles.filter (fun f => f.environmentId == eid) := by
  unfold upsertEnvFile
  split
  · rw [List.filter_map]
    have hq : ((fun f : EnvFile => f.environmentId == eid) ∘
        (fun f => if f.environmentId = e ∧ f.relativePath = p then
          { f with content := c } else f))
        = (fun f : EnvFile => f.environmentId == eid) := by
      funext f
      by_cases hf : f.environmentId = e ∧ f.relativePath = p <;>
        simp [hf, Function.comp]
    rw [hq]
    have : ∀ l : List EnvFile,
        (∀ f ∈ l, f.environmentId = eid → ¬ (f.environmentId = e ∧ f.relativePath = p)) →
        (l.filter (fun f => f.environmentId == eid)).map
          (fun f => if f.environmentId = e ∧ f.relativePath = p then
            { f with content := c } else f)
        = l.filter (fun f => f.environmentId == eid) := by
      intro l
      induction l with
      | nil => intro _; rfl
      | cons f fs ihl =>
        intro hl
        by_cases hfe : f.environmentId = eid
        · rw [List.filter_cons_of_pos (by simp [hfe]),
            List.map_cons, if_neg (hl f (by simp) hfe),
            ihl (fun g hg => hl g (by simp [hg]))]
        · rw [List.filter_cons_of_neg (by simp [hfe]),
            ihl (fun g hg => hl g (by simp [hg]))]
    exact this db.envFiles (fun f _ hfe hfp => h (hfe ▸ hfp.1.symm ▸ rfl))
  · rw [List.filter_append]
    have : ((⟨db.nextEnvFileId, e, p, c⟩ : EnvFile).environmentId == eid) = false := by
      simp [Ne.symm h]
    simp [this]

theorem upsertEnvFile_mem_of_other (db : Db) (e : Nat) (p c : String) (f : EnvFile)
    (hf : f ∈ db.envFiles) (hne : ¬ (f.environmentId = e ∧ f.relativePath = p)) :
    f ∈ (upsertEnvFile db e p c).envFiles := by
  unfold upsertEnvFile
  split
  · refine List.mem_map.2 ⟨f, hf, ?_⟩
    rw [if_neg hne]
  · simp [hf]

theorem upsertEnvFile_filter_self (db : Db) (e : Nat) (p c : String)
    (hpairs : (db.envFiles.map (fun f => (f.environmentId, f.relativePath))).Nodup) :
    ((upsertEnvFile db e p c).envFiles.filter
        (fun f => f.environmentId == e && f.relativePath == p)).map (fun f => f.content)
      = [c] := by
  unfold upsertEnvFile
  split
  · rename_i hany
    obtain ⟨x, hx, hpx⟩ := List.any_eq_true.1 hany
    have hcount : db.envFiles.countP
        (fun f => f.environmentId == e && f.relativePath == p) ≤ 1 :=
      countP_le_one_of_nodup hpairs (by
        intro a _ b _ hpa hpb
        simp only [Bool.and_eq_true, beq_iff_eq] at hpa hpb
        simp [hpa.1, hpa.2, hpb.1, hpb.2])
    have hfl : db.envFiles.filter
        (fun f => f.environmentId == e && f.relativePath == p) = [x] :=
      filter_eq_singleton_of_unique hcount hx hpx
    rw [List.filter_map]
    have hq : ((fun f : EnvFile => f.environmentId == e && f.relativePath == p) ∘
        (fun f => if f.environmentId = e ∧ f.relativePath = p then
          { f with content := c } else f))
        = (fun f : EnvFile => f.environmentId == e && f.relativePath == p) := by
      funext f
      by_cases hf : f.environmentId = e ∧ f.relativePath = p <;>
        simp [hf, Function.comp]
    rw [hq, hfl]
    have hxm : x.environmentId = e ∧ x.relativePath = p := by
      simpa using hpx
    simp [hxm]
  · rename_i hany
    rw [List.filter_append]
    have h1 : db.envFiles.filter
        (fun f => f.environmentId == e && f.relativePath == p) = [] := by
      rw [List.filter_eq_nil_iff]
      intro f hf hpf
      exact hany (List.any_eq_true.2 ⟨f, hf, hpf⟩)
    rw [h1]
    simp

theorem envSet_eq (db : Db) (n key value : String) (env : Environment)
    (henv : getEnvironmentByName db n = some env)
    (hkey : ∀ c ∈ key.data, c ≠ '=') :
    envSet db n (key ++ "=" ++ value)
      = (upsertEnvFile db env.id ".env"
          (setEnvContent (storedEnvContent db env.id) key value), .ok ()) := by
  have hdata : (key ++ "=" ++ value).data = key.data ++ '=' :: value.data := by
    simp [String.data_append]
  have hany : ((key ++ "=" ++ value).data.any (fun c => c == '=')) = true := by
    rw [hdata]
    simp
  have hkey' : (⟨(key ++ "=" ++ value).data.takeWhile (fun c => !(c == '='))⟩ : String)
      = key := by
    rw [hdata, takeWhile_append_of_all _ '=' value.data
      (fun c hc => by simpa using hkey c hc) (by decide)]
  have hval' : (⟨((key ++ "=" ++ value).data.dropWhile (fun c => !(c == '='))).tail⟩
      : String) = value := by
    rw [hdata, dropWhile_append_of_all _ '=' value.data
      (fun c hc => by simpa using hkey c hc) (by decide)]
    rfl
  simp only [envSet, hany, if_true, hkey', hval', henv]

/-- C10: for input `KEY=VALUE`, `envSet` succeeds and modifies only the
`.env` env-file record of the named environment — the transformed content
replaces the first line starting with `KEY=` by `KEY=VALUE` if one exists and
otherwise appends `KEY=VALUE` with a trailing newline — while the project
rows, the environment rows, the port mappings, every env-file record of any
other environment, and every record of this environment at another relative
path stay unchanged. -/
theorem envSet_frame (db : Db) (n key value : String) (env : Environment)
    (henv : getEnvironmentByName db n = some env)
    (hkey : ∀ c ∈ key.data, c ≠ '=')
    (hpairs : (db.envFiles.map (fun f => (f.environmentId, f.relativePath))).Nodup) :
    (envSet db n (key ++ "=" ++ value)).2 = .ok () ∧
    (envSet db n (key ++ "=" ++ value)).1.projects = db.projects ∧
    (envSet db n (key ++ "=" ++ value)).1.environments = db.environments ∧
    (envSet db n (key ++ "=" ++ value)).1.portMappings = db.portMappings ∧
    (∀ eid, eid ≠ env.id →
      getEnvFiles (envSet db n (key ++ "=" ++ value)).1 eid = getEnvFiles db eid) ∧
    (∀ f ∈ db.envFiles, ¬ (f.environmentId = env.id ∧ f.relativePath = ".env") →
      f ∈ (envSet db n (key ++ "=" ++ value)).1.envFiles) ∧
    ∃ newContent,
      ((envSet db n (key ++ "=" ++ value)).1.envFiles.filter
          (fun f => f.environmentId == env.id && f.relativePath == ".env")).map
          (fun f => f.content) = [newContent] ∧
      ((∃ i, ∃ hi : i < ((storedEnvContent db env.id).splitOn "\n").length,
          (((storedEnvContent db env.id).splitOn "\n").get ⟨i, hi⟩).startsWith
            (key ++ "=") = true ∧
          (∀ j (hj : j < ((storedEnvContent db env.id).splitOn "\n").length), j < i →
            ¬ (((storedEnvContent db env.id).splitOn "\n").get ⟨j, hj⟩).startsWith
              (key ++ "=")) ∧
          newContent = String.intercalate "\n"
            (((storedEnvContent db env.id).splitOn "\n").set i (key ++ "=" ++ value))) ∨
        ((∀ l ∈ (storedEnvContent db env.id).splitOn "\n",
            ¬ l.startsWith (key ++ "=")) ∧
          newContent = (if (storedEnvContent db env.id).length > 0 &&
              !((storedEnvContent db env.id).endsWith "\n")
            then storedEnvContent db env.id ++ "\n"
            else storedEnvContent db env.id) ++ key ++ "=" ++ value ++ "\n")) := by
  rw [envSet_eq db n key value env henv hkey]
  refine ⟨rfl, (upsertEnvFile_frame_fields _ _ _ _).1,
    (upsertEnvFile_frame_fields _ _ _ _).2.1,
    (upsertEnvFile_frame_fields _ _ _ _).2.2, ?_, ?_, ?_⟩
  · intro eid hne
    unfold getEnvFiles
    rw [upsertEnvFile_filter_ne db env.id ".env" _ eid hne]
  · intro f hf hne
    exact upsertEnvFile_mem_of_other db env.id ".env" _ f hf hne
  · refine ⟨setEnvContent (storedEnvContent db env.id) key value,
      upsertEnvFile_filter_self db env.id ".env" _ hpairs, ?_⟩
    exact setEnvContent_spec (storedEnvContent db env.id) key value

/-- A store with one environment owning a `.env` record and an unrelated
record, and a second environment with its own `.env` record. -/
def dbEnvFiles : Db :=
  { projects := [⟨1, "demo", "/repo"⟩],
    environments := [⟨1, 1, "demo-main", "main", .running, some "c1", none, none⟩,
      ⟨2, 1, "demo-dev", "dev", .stopped, some "c2", none, none⟩],
    envFiles := [⟨1, 1, ".env", "A=1\nB=2\n"⟩, ⟨2, 1, "web/.env", "C=3\n"⟩,
      ⟨3, 2, ".env", "D=4\n"⟩],
    portMappings := [],
    nextProjectId := 2, nextEnvironmentId := 3, nextEnvFileId := 4,
    nextPortMappingId := 1 }

/-- Closed witness for `envSet_frame`. -/
theorem envSet_frame_witness :
    (envSet dbEnvFiles "demo-main" ("B" ++ "=" ++ "9")).2 = .ok () ∧
    (envSet dbEnvFiles "demo-main" ("B" ++ "=" ++ "9")).1.environments
      = dbEnvFiles.environments :=
  ⟨(envSet_frame dbEnvFiles "demo-main" "B" "9"
      ⟨1, 1, "demo-main", "main", .running, some "c1", none, none⟩
      (by decide) (by decide) (by decide)).1,
   (envSet_frame dbEnvFiles "demo-main" "B" "9"
      ⟨1, 1, "demo-main", "main", .running, some "c1", none, none⟩
      (by decide) (by decide) (by decide)).2.2.1⟩

/-! ### C8: stop/start round trip -/

theorem eraseP_eq_filter_of_nodup {rs : List CaddyRoute} {rid : String}
    (h : (rs.map (fun r => r.id)).Nodup) :
    rs.eraseP (fun r => r.id == rid) = rs.filter (fun r => !(r.id == rid)) := by
  induction rs with
  | nil => rfl
  | cons x xs ih =>
    rw [List.map_cons] at h
    have h' := List.nodup_cons.1 h
    by_cases hx : x.id = rid
    · rw [List.eraseP_cons_of_pos (by simp [hx]), List.filter_cons_of_neg (by simp [hx])]
      symm
      rw [List.filter_eq_self]
      intro y hy
      simp only [Bool.not_eq_true']
      refine beq_eq_false_iff_ne.2 (fun hyx => h'.1 ?_)
      exact List.mem_map.2 ⟨y, hy, by rw [hyx, hx]⟩
    · rw [List.eraseP_cons_of_neg (by simp [hx]), List.filter_cons_of_pos (by simp [hx]),
        ih h'.2]

theorem removeRoutes_fold (n : String) (pms : List PortMapping) :
    ∀ (rs : List CaddyRoute), (rs.map (fun r => r.id)).Nodup →
    pms.foldl (fun s pm => removeRoute s (routeId n pm.containerPort)) (some rs)
      = some (rs.filter (fun r =>
          pms.all (fun pm => !(r.id == routeId n pm.containerPort)))) := by
  induction pms with
  | nil =>
    intro rs _
    simp
  | cons pm pms ih =>
    intro rs hids
    rw [List.foldl_cons]
    have h1 : removeRoute (some rs) (routeId n pm.containerPort)
        = some (rs.filter (fun r => !(r.id == routeId n pm.containerPort))) := by
      simp only [removeRoute]
      rw [eraseP_eq_filter_of_nodup hids]
    rw [h1, ih _ (((List.filter_sublist rs).map _).nodup hids)]
    rw [List.filter_filter]
    have hpeq : (fun a : CaddyRoute =>
        (pms.all fun q => !(a.id == routeId n q.containerPort)) &&
          !(a.id == routeId n pm.containerPort))
        = (fun r : CaddyRoute =>
            (pm :: pms).all fun q => !(r.id == routeId n q.containerPort)) := by
      funext a
      simp [List.all_cons, Bool.and_comm]
    rw [hpeq]

theorem addRoutes_fold_fresh (n' : String) :
    ∀ (pms : List PortMapping) (rs : List CaddyRoute),
    (∀ pm ∈ pms, ∀ r ∈ rs, r.id ≠ routeId n' pm.containerPort) →
    (pms.map (fun pm => pm.containerPort)).Nodup →
    pms.foldl (fun s pm =>
        addRoute s (routeId n' pm.containerPort) pm.hostname pm.hostPort) (some rs)
      = some (rs ++ pms.map (fun pm =>
          (⟨routeId n' pm.containerPort, pm.hostname, pm.hostPort⟩ : CaddyRoute))) := by
  intro pms
  induction pms with
  | nil =>
    intro rs _ _
    simp
  | cons pm pms ih =>
    intro rs hfresh hports
    rw [List.map_cons] at hports
    have hports' := List.nodup_cons.1 hports
    rw [List.foldl_cons]
    have h1 : addRoute (some rs) (routeId n' pm.containerPort) pm.hostname pm.hostPort
        = some (rs ++ [⟨routeId n' pm.containerPort, pm.hostname, pm.hostPort⟩]) := by
      have hnone := putRouteById_eq_none
        (l := rs) (r := ⟨routeId n' pm.containerPort, pm.hostname, pm.hostPort⟩)
        (fun x hx => hfresh pm (by simp) x hx)
      rw [addRoute_some_eq, hnone]
    rw [h1, ih _ ?_ hports'.2]
    · simp
    · intro pm' hpm' r hr
      rcases List.mem_append.1 hr with hr | hr
      · exact hfresh pm' (by simp [hpm']) r hr
      · simp only [List.mem_singleton] at hr
        subst hr
        intro heq
        have := (routeId_eq_iff.1 heq).2
        exact hports'.1 (List.mem_map.2 ⟨pm', hpm', this.symm⟩)

theorem routeId_injective_port (n' : String) :
    Function.Injective (fun p : Nat => routeId n' p) := by
  intro a b h
  exact (routeId_eq_iff.1 h).2

/-- C8: for an environment with a stored containerId, `stop` removes, for
each of its port mappings, the route whose id derives from
(environmentName, containerPort) and sets status `stopped`, leaving the port
mappings unchanged; a subsequent `start` sets status `running` and re-adds
the identical routes (same id, hostname and hostPort, from the unchanged
port-mapping rows), leaving exactly one route per mapping. -/
theorem stop_start_round_trip (db : Db) (rs : List CaddyRoute) (n : String)
    (env : Environment) (cid : String)
    (henv : getEnvironmentByName db n = some env)
    (hcid : env.containerId = some cid)
    (hids : (rs.map (fun r => r.id)).Nodup)
    (hports : ((getPortMappings db env.id).map (fun m => m.containerPort)).Nodup) :
    (stop db (some rs) n).2.2 = .ok () ∧
    getEnvironmentByName (stop db (some rs) n).1 n
      = some { env with status := .stopped } ∧
    getPortMappings (stop db (some rs) n).1 env.id = getPortMappings db env.id ∧
    (∃ rs1, (stop db (some rs) n).2.1 = some rs1 ∧
      (∀ pm ∈ getPortMappings db env.id, ∀ r ∈ rs1,
        r.id ≠ routeId n pm.containerPort) ∧
      (start (stop db (some rs) n).1 (some rs1) n).2.2 = .ok () ∧
      getEnvironmentByName (start (stop db (some rs) n).1 (some rs1) n).1 n
        = some { env with status := .running } ∧
      getPortMappings (start (stop db (some rs) n).1 (some rs1) n).1 env.id
        = getPortMappings db env.id ∧
      (∃ rs2, (start (stop db (some rs) n).1 (some rs1) n).2.1 = some rs2 ∧
        ∀ pm ∈ getPortMappings db env.id,
          rs2.filter (fun r => r.id == routeId n pm.containerPort)
            = [⟨routeId n pm.containerPort, pm.hostname, pm.hostPort⟩])) := by
  have hpm1 : getPortMappings (updateEnvironmentStatus db env.id EnvStatus.stopped) env.id
      = getPortMappings db env.id := rfl
  have hstop : stop db (some rs) n
      = (updateEnvironmentStatus db env.id .stopped,
         some (rs.filter (fun r => (getPortMappings db env.id).all
            (fun pm => !(r.id == routeId n pm.containerPort)))), .ok ()) := by
    simp only [stop, henv, hcid]
    rw [hpm1, removeRoutes_fold n (getPortMappings db env.id) rs hids]
  have henv1 : getEnvironmentByName (updateEnvironmentStatus db env.id .stopped) n
      = some { env with status := .stopped } := by
    rw [getEnvironmentByName_updateStatus, henv]
    simp
  set rs1 := rs.filter (fun r => (getPortMappings db env.id).all
      (fun pm => !(r.id == routeId n pm.containerPort))) with hrs1
  have hfresh : ∀ pm ∈ getPortMappings db env.id, ∀ r ∈ rs1,
      r.id ≠ routeId n pm.containerPort := by
    intro pm hpm r hr
    have := (List.mem_filter.1 hr).2
    have hall := List.all_eq_true.1 this pm hpm
    simpa using hall
  have hpm2 : getPortMappings
      (updateEnvironmentStatus (updateEnvironmentStatus db env.id .stopped) env.id
        EnvStatus.running) env.id = getPortMappings db env.id := rfl
  set news := (getPortMappings db env.id).map (fun pm =>
      (⟨routeId n pm.containerPort, pm.hostname, pm.hostPort⟩ : CaddyRoute)) with hnews
  have hstart : start (updateEnvironmentStatus db env.id .stopped) (some rs1) n
      = (updateEnvironmentStatus (updateEnvironmentStatus db env.id .stopped) env.id
          .running, some (rs1 ++ news), .ok ()) := by
    simp only [start, henv1, hcid]
    rw [hpm2, addRoutes_fold_fresh n (getPortMappings db env.id) rs1 hfresh hports]
  have henv2 : getEnvironmentByName
      (updateEnvironmentStatus (updateEnvironmentStatus db env.id .stopped) env.id
        .running) n = some { env with status := .running } := by
    rw [getEnvironmentByName_updateStatus, henv1]
    simp
  rw [hstop]
  refine ⟨rfl, henv1, hpm1, rs1, rfl, hfresh, ?_⟩
  rw [hstart]
  refine ⟨rfl, henv2, hpm2, rs1 ++ news, rfl, ?_⟩
  intro pm hpm
  rw [List.filter_append]
  have h1 : rs1.filter (fun r => r.id == routeId n pm.containerPort) = [] := by
    rw [List.filter_eq_nil_iff]
    intro r hr hpr
    exact hfresh pm hpm r hr (by simpa using hpr)
  have hnn : (news.map (fun r => r.id)).Nodup := by
    rw [hnews, List.map_map]
    have : ((fun r : CaddyRoute => r.id) ∘ (fun pm : PortMapping =>
        (⟨routeId n pm.containerPort, pm.hostname, pm.hostPort⟩ : CaddyRoute)))
        = (fun p : Nat => routeId n p) ∘ (fun pm : PortMapping => pm.containerPort) := rfl
    rw [this, ← List.map_map]
    exact hports.map (routeId_injective_port n)
  have h2 : news.filter (fun r => r.id == routeId n pm.containerPort)
      = [⟨routeId n pm.containerPort, pm.hostname, pm.hostPort⟩] := by
    refine filter_eq_singleton_of_unique ?_ ?_ (by simp)
    · refine countP_le_one_of_nodup (k := fun r : CaddyRoute => r.id) hnn ?_
      intro x _ y _ hpx hpy
      rw [beq_iff_eq] at hpx hpy
      simp [hpx, hpy]
    · exact List.mem_map.2 ⟨pm, hpm, rfl⟩
  rw [h1, h2, List.nil_append]

def dbStopStart : Db :=
  { projects := [⟨1, "demo", "/repo"⟩],
    environments := [⟨1, 1, "demo-main", "main", .running, some "c1", none, none⟩],
    envFiles := [],
    portMappings := [⟨1, 1, 3000, 49200, "demo-main.localhost"⟩],
    nextProjectId := 2, nextEnvironmentId := 2, nextEnvFileId := 1,
    nextPortMappingId := 2 }

def rsDemo : List CaddyRoute := [⟨"devenv-demo-main-3000", "demo-main.localhost", 49200⟩]

/-- Closed witness for `stop_start_round_trip`. -/
theorem stop_start_round_trip_witness :
    (stop dbStopStart (some rsDemo) "demo-main").2.2 = .ok () ∧
    getEnvironmentByName (stop dbStopStart (some rsDemo) "demo-main").1 "demo-main"
      = some ⟨1, 1, "demo-main", "main", .stopped, some "c1", none, none⟩ :=
  ⟨(stop_start_round_trip dbStopStart rsDemo "demo-main"
      ⟨1, 1, "demo-main", "main", .running, some "c1", none, none⟩ "c1"
      (by decide) rfl (by decide) (by decide)).1,
   (stop_start_round_trip dbStopStart rsDemo "demo-main"
      ⟨1, 1, "demo-main", "main", .running, some "c1", none, none⟩ "c1"
      (by decide) rfl (by decide) (by decide)).2.1⟩

/-! ### C9: branch leaves the source environment untouched -/

theorem foldUpsert_fields (envId : Nat) :
    ∀ (files : List EnvFile) (db : Db),
    ((files.foldl (fun d f => upsertEnvFile d envId f.relativePath f.content) db).projects
        = db.projects) ∧
    ((files.foldl (fun d f => upsertEnvFile d envId f.relativePath f.content) db).environments
        = db.environments) ∧
    ((files.foldl (fun d f => upsertEnvFile d envId f.relativePath f.content) db).portMappings
        = db.portMappings) := by
  intro files
  induction files with
  | nil => intro db; exact ⟨rfl, rfl, rfl⟩
  | cons f fs ih =>
    intro db
    rw [List.foldl_cons]
    obtain ⟨h1, h2, h3⟩ := ih (upsertEnvFile db envId f.relativePath f.content)
    obtain ⟨g1, g2, g3⟩ := upsertEnvFile_frame_fields db envId f.relativePath f.content
    exact ⟨by rw [h1, g1], by rw [h2, g2], by rw [h3, g3]⟩

theorem allocPorts_fields (envId : Nat) (pn bn : String) :
    ∀ (ports : List Nat) (db : Db),
    ((allocPorts db envId pn bn ports).1.projects = db.projects ∧
     (allocPorts db envId pn bn ports).1.environments = db.environments ∧
     (allocPorts db envId pn bn ports).1.envFiles = db.envFiles) ∧
    ∃ news, (allocPorts db envId pn bn ports).1.portMappings = db.portMappings ++ news ∧
      ∀ m ∈ news, m.environmentId = envId := by
  intro ports
  induction ports with
  | nil =>
    intro db
    exact ⟨⟨rfl, rfl, rfl⟩, [], by simp [allocPorts], by simp⟩
  | cons cp rest ih =>
    intro db
    simp only [allocPorts]
    cases hins : insertPortMapping db envId cp (getNextAvailableHostPort db)
        (generateHostname pn bn (some cp)) with
    | none => exact ⟨⟨rfl, rfl, rfl⟩, [], by simp, by simp⟩
    | some md =>
      obtain ⟨m, db'⟩ := md
      dsimp only
      have hfacts : db'.projects = db.projects ∧ db'.environments = db.environments ∧
          db'.envFiles = db.envFiles ∧
          db'.portMappings = db.portMappings ++
            [⟨db.nextPortMappingId, envId, cp, getNextAvailableHostPort db,
              generateHostname pn bn (some cp)⟩] := by
        unfold insertPortMapping at hins
        split at hins
        · cases hins
        · simp only [Option.some_inj, Prod.mk.injEq] at hins
          rw [← hins.2]
          exact ⟨rfl, rfl, rfl, rfl⟩
      obtain ⟨⟨hpj, hev, hef⟩, news', hpm', hnews'⟩ := ih db'
      cases hrest : allocPorts db' envId pn bn rest with
      | mk dbf r =>
        rw [hrest] at hpj hev hef hpm'
        have hfields : dbf.projects = db.projects ∧ dbf.environments = db.environments ∧
            dbf.envFiles = db.envFiles :=
          ⟨by rw [hpj, hfacts.1], by rw [hev, hfacts.2.1], by rw [hef, hfacts.2.2.1]⟩
        have hpmf : dbf.portMappings = db.portMappings ++
            ((⟨db.nextPortMappingId, envId, cp, getNextAvailableHostPort db,
              generateHostname pn bn (some cp)⟩ : PortMapping) :: news') := by
          rw [hpm', hfacts.2.2.2]
          simp
        have hmemf : ∀ q ∈ (⟨db.nextPortMappingId, envId, cp, getNextAvailableHostPort db,
            generateHostname pn bn (some cp)⟩ : PortMapping) :: news',
            q.environmentId = envId := by
          intro q hq
          rcases List.mem_cons.1 hq with rfl | hq'
          · rfl
          · exact hnews' q hq'
        cases r with
        | none => exact ⟨hfields, _, hpmf, hmemf⟩
        | some pms => exact ⟨hfields, _, hpmf, hmemf⟩

theorem getEnvironmentByName_updateContainer (db : Db) (id : Nat) (c : String)
    (name : String) :
    getEnvironmentByName (updateEnvironmentContainer db id c) name
      = (getEnvironmentByName db name).map
          (fun e => if e.id = id then { e with containerId := some c } else e) := by
  unfold getEnvironmentByName updateEnvironmentContainer
  rw [List.find?_map]
  have hpred : ((fun e : Environment => e.name == name) ∘ fun e =>
      if e.id = id then { e with containerId := some c } else e)
      = (fun e : Environment => e.name == name) := by
    funext e
    by_cases h : e.id = id <;> simp [h, Function.comp]
  rw [hpred]

theorem putRouteById_filter_ne {rs rs' : List CaddyRoute} {r : CaddyRoute}
    (h : putRouteById rs r = some rs') (rid' : String) (hne : rid' ≠ r.id) :
    rs'.filter (fun x => x.id == rid') = rs.filter (fun x => x.id == rid') := by
  induction rs generalizing rs' with
  | nil => cases h
  | cons x xs ih =>
    simp only [putRouteById] at h
    by_cases hx : x.id = r.id
    · rw [if_pos hx] at h
      cases h
      rw [List.filter_cons_of_neg (by simp; exact fun hh => hne hh.symm),
        List.filter_cons_of_neg (by simp [hx]; exact fun hh => hne hh.symm)]
    · rw [if_neg hx] at h
      cases hp2 : putRouteById xs r with
      | none => rw [hp2] at h; cases h
      | some ys =>
        rw [hp2] at h
        simp only [Option.map_some'] at h
        cases h
        by_cases hxq : (x.id == rid') = true
        · rw [List.filter_cons_of_pos (p := fun y : CaddyRoute => y.id == rid') hxq,
            List.filter_cons_of_pos (p := fun y : CaddyRoute => y.id == rid') hxq, ih hp2]
        · rw [List.filter_cons_of_neg (p := fun y : CaddyRoute => y.id == rid') hxq,
            List.filter_cons_of_neg (p := fun y : CaddyRoute => y.id == rid') hxq, ih hp2]

theorem addRoute_some (rs : List CaddyRoute) (rid hn : String) (hp : Nat) :
    ∃ rs2, addRoute (some rs) rid hn hp = some rs2 ∧
      ∀ rid', rid' ≠ rid →
        rs2.filter (fun r => r.id == rid') = rs.filter (fun r => r.id == rid') := by
  cases hput : putRouteById rs ⟨rid, hn, hp⟩ with
  | some rs2 =>
    refine ⟨rs2, ?_, fun rid' hne => putRouteById_filter_ne hput rid' hne⟩
    rw [addRoute_some_eq, hput]
  | none =>
    refine ⟨rs ++ [⟨rid, hn, hp⟩], ?_, fun rid' hne => ?_⟩
    · rw [addRoute_some_eq, hput]
    · rw [List.filter_append]
      have : (((⟨rid, hn, hp⟩ : CaddyRoute)).id == rid') = false := by
        simp
        exact fun hh => hne hh.symm
      simp [this]

theorem addRoutes_filter_all (n' : String) :
    ∀ (pms : List (Nat × Nat × String)) (rs : List CaddyRoute),
    ∃ rs', addRoutes (some rs) n' pms = some rs' ∧
      ∀ rid', (∀ pm ∈ pms, rid' ≠ routeId n' pm.1) →
        rs'.filter (fun r => r.id == rid') = rs.filter (fun r => r.id == rid') := by
  intro pms
  induction pms with
  | nil => intro rs; exact ⟨rs, rfl, fun _ _ => rfl⟩
  | cons pm rest ih =>
    intro rs
    obtain ⟨rs2, h2, hframe2⟩ := addRoute_some rs (routeId n' pm.1) pm.2.2 pm.2.1
    obtain ⟨rs', h', hframe'⟩ := ih rs2
    refine ⟨rs', ?_, fun rid' hne => ?_⟩
    · show (pm :: rest).foldl (fun s q => addRoute s (routeId n' q.1) q.2.2 q.2.1)
          (some rs) = some rs'
      rw [List.foldl_cons, h2]
      exact h'
    · rw [hframe' rid' (fun q hq => hne q (by simp [hq])),
        hframe2 rid' (hne pm (by simp))]

/-- C9: `branch` leaves the source environment's row, its port mappings and
its proxy routes unchanged, on every control path (including db-constraint
failures): every store and proxy mutation it performs targets only the newly
created environment. -/
theorem branch_frame (db : Db) (st : CaddyState) (envName newBranch : String)
    (fp : List Nat) (oracle : RuntimeOracle) (sourceEnv : Environment)
    (henv : getEnvironmentByName db envName = some sourceEnv)
    (hWF : ∀ e ∈ db.environments, e.id < db.nextEnvironmentId) :
    getEnvironmentByName (branch db st envName newBranch fp oracle).1 envName
      = some sourceEnv ∧
    (branch db st envName newBranch fp oracle).1.portMappings.filter
        (fun m => m.environmentId == sourceEnv.id)
      = db.portMappings.filter (fun m => m.environmentId == sourceEnv.id) ∧
    (∀ rs, st = some rs → ∃ rs',
      (branch db st envName newBranch fp oracle).2.1 = some rs' ∧
      ∀ q : Nat, rs'.filter (fun r => r.id == routeId envName q)
        = rs.filter (fun r => r.id == routeId envName q)) := by
  simp only [branch, henv]
  cases hproj : getProjectById db sourceEnv.projectId with
  | none =>
    exact ⟨henv, rfl, fun rs hst => ⟨rs, by rw [hst], fun q => rfl⟩⟩
  | some project =>
    dsimp only
    cases hins2 : insertEnvironment db sourceEnv.projectId
        (project.name ++ "-" ++ slugify newBranch) newBranch
        (some (project.repoPath ++ "/.devenv/worktrees/" ++ newBranch))
        sourceEnv.devcontainerConfig with
    | none =>
      exact ⟨henv, rfl, fun rs hst => ⟨rs, by rw [hst], fun q => rfl⟩⟩
    | some md =>
      obtain ⟨newEnv, db1⟩ := md
      have hfacts : newEnv.id = db.nextEnvironmentId ∧
          db1.environments = db.environments ++ [newEnv] ∧
          db1.projects = db.projects ∧ db1.portMappings = db.portMappings ∧
          db1.envFiles = db.envFiles ∧
          ¬ (db.environments.any
              (fun e => e.name == project.name ++ "-" ++ slugify newBranch)) = true := by
        unfold insertEnvironment at hins2
        split at hins2
        · cases hins2
        · rename_i hg
          simp only [Option.some_inj, Prod.mk.injEq] at hins2
          obtain ⟨he, hd⟩ := hins2
          rw [← hd, ← he]
          exact ⟨rfl, rfl, rfl, rfl, rfl, hg⟩
      have hmem := List.mem_of_find?_eq_some henv
      have hsn : sourceEnv.name = envName := by
        have := List.find?_some henv
        simpa using this
      have hne_id : sourceEnv.id ≠ newEnv.id := by
        have := hWF sourceEnv hmem
        rw [hfacts.1]
        omega
      have hname_ne : envName ≠ project.name ++ "-" ++ slugify newBranch := by
        intro he
        refine hfacts.2.2.2.2.2 (List.any_eq_true.2 ⟨sourceEnv, hmem, ?_⟩)
        simp [hsn, he]
      dsimp only
      obtain ⟨hf1, hf2, hf3⟩ :=
        foldUpsert_fields newEnv.id (getEnvFiles db1 sourceEnv.id) db1
      obtain ⟨⟨ha1, ha2, ha3⟩, news, hapm, hanews⟩ :=
        allocPorts_fields newEnv.id project.name newBranch fp
          ((getEnvFiles db1 sourceEnv.id).foldl
            (fun d f => upsertEnvFile d newEnv.id f.relativePath f.content) db1)
      cases halloc : allocPorts
          ((getEnvFiles db1 sourceEnv.id).foldl
            (fun d f => upsertEnvFile d newEnv.id f.relativePath f.content) db1)
          newEnv.id project.name newBranch fp with
      | mk db3 r =>
        rw [halloc] at ha1 ha2 ha3 hapm
        have henvs3 : db3.environments = db.environments ++ [newEnv] := by
          rw [ha2, hf2, hfacts.2.1]
        have henv3 : getEnvironmentByName db3 envName = some sourceEnv := by
          unfold getEnvironmentByName
          rw [henvs3, List.find?_append]
          have hh : db.environments.find? (fun e => e.name == envName)
              = some sourceEnv := henv
          rw [hh]
          rfl
        have hpm3 : db3.portMappings.filter (fun m => m.environmentId == sourceEnv.id)
            = db.portMappings.filter (fun m => m.environmentId == sourceEnv.id) := by
          rw [hapm, hf3, hfacts.2.2.2.1, List.filter_append]
          have : news.filter (fun m => m.environmentId == sourceEnv.id) = [] := by
            rw [List.filter_eq_nil_iff]
            intro m hm hq
            rw [beq_iff_eq] at hq
            exact hne_id ((hanews m hm ▸ hq).symm)
          rw [this, List.append_nil]
        cases r with
        | none => exact ⟨henv3, hpm3, fun rs hst => ⟨rs, by rw [hst], fun q => rfl⟩⟩
        | some pms =>
          refine ⟨?_, hpm3, ?_⟩
          · rw [getEnvironmentByName_updateStatus, getEnvironmentByName_updateContainer,
              henv3]
            simp [hne_id]
          · intro rs hst
            subst hst
            obtain ⟨rs', hadd, hframe⟩ := addRoutes_filter_all
              (project.name ++ "-" ++ slugify newBranch) pms rs
            refine ⟨rs', hadd, fun q => ?_⟩
            refine hframe (routeId envName q) ?_
            intro pm _ he
            exact hname_ne (routeId_eq_iff.1 he).1

/-- A store with a project and a source environment holding one port
mapping. -/
def dbBranchSource : Db :=
  { projects := [⟨1, "demo", "/repo"⟩],
    environments := [⟨1, 1, "demo-main", "main", .running, some "c1", none, none⟩],
    envFiles := [],
    portMappings := [⟨1, 1, 3000, 49200, "demo-main.localhost"⟩],
    nextProjectId := 2, nextEnvironmentId := 2, nextEnvFileId := 1,
    nextPortMappingId := 2 }

/-- Closed witness for `branch_frame`. -/
theorem branch_frame_witness :
    getEnvironmentByName
        (branch dbBranchSource (some rsDemo) "demo-main" "dev" [3000]
          oracleGone).1 "demo-main"
      = some ⟨1, 1, "demo-main", "main", .running, some "c1", none, none⟩ ∧
    (branch dbBranchSource (some rsDemo) "demo-main" "dev" [3000]
        oracleGone).1.portMappings.filter (fun m => m.environmentId == 1)
      = dbBranchSource.portMappings.filter (fun m => m.environmentId == 1) ∧
    ∃ rs', (branch dbBranchSource (some rsDemo) "demo-main" "dev" [3000]
        oracleGone).2.1 = some rs' ∧
      ∀ q : Nat, rs'.filter (fun r => r.id == routeId "demo-main" q)
        = rsDemo.filter (fun r => r.id == routeId "demo-main" q) :=
  ⟨(branch_frame dbBranchSource (some rsDemo) "demo-main" "dev" [3000] oracleGone
      ⟨1, 1, "demo-main", "main", .running, some "c1", none, none⟩
      (by decide) (by decide)).1,
   (branch_frame dbBranchSource (some rsDemo) "demo-main" "dev" [3000] oracleGone
      ⟨1, 1, "demo-main", "main", .running, some "c1", none, none⟩
      (by decide) (by decide)).2.1,
   (branch_frame dbBranchSource (some rsDemo) "demo-main" "dev" [3000] oracleGone
      ⟨1, 1, "demo-main", "main", .running, some "c1", none, none⟩
      (by decide) (by decide)).2.2 rsDemo rfl⟩

/-! ### C1: global hostPort/hostname isolation invariant -/

/-- The resource-isolation contract: hostPorts pairwise distinct and
hostnames pairwise distinct across all environments. -/
def PortsIsolated (db : Db) : Prop :=
  (db.portMappings.map (fun m => m.hostPort)).Nodup ∧
  (db.portMappings.map (fun m => m.hostname)).Nodup

/-- One successful state-store operation (the store interface of
db/database.ts); every command execution — complete or interrupted at any
point — is a sequence of these. -/
inductive DbStep : Db → Db → Prop where
  | insertProject {db : Db} {n r : String} {p : Project} {db' : Db} :
      insertProject db n r = some (p, db') → DbStep db db'
  | insertEnvironment {db : Db} {pid : Nat} {n b : String} {w c : Option String}
      {env : Environment} {db' : Db} :
      insertEnvironment db pid n b w c = some (env, db') → DbStep db db'
  | updateEnvironmentStatus (db : Db) (i : Nat) (s : EnvStatus) :
      DbStep db (updateEnvironmentStatus db i s)
  | updateEnvironmentContainer (db : Db) (i : Nat) (c : String) :
      DbStep db (updateEnvironmentContainer db i c)
  | upsertEnvFile (db : Db) (e : Nat) (p c : String) :
      DbStep db (upsertEnvFile db e p c)
  | insertPortMapping {db : Db} {e cp hp : Nat} {hn : String} {m : PortMapping}
      {db' : Db} :
      insertPortMapping db e cp hp hn = some (m, db') → DbStep db db'
  | deletePortMappings (db : Db) (e : Nat) : DbStep db (deletePortMappings db e)

/-- A store state reachable from the empty store through store operations. -/
def Reachable (db : Db) : Prop := Relation.ReflTransGen DbStep emptyDb db

theorem isolated_of_pm_eq {db db' : Db} (h : db'.portMappings = db.portMappings)
    (hiso : PortsIsolated db) : PortsIsolated db' := by
  unfold PortsIsolated at hiso ⊢
  rw [h]
  exact hiso

theorem insertPortMapping_isolated {db : Db} {e cp hp : Nat} {hn : String}
    {m : PortMapping} {db' : Db} (h : insertPortMapping db e cp hp hn = some (m, db'))
    (hiso : PortsIsolated db) : PortsIsolated db' := by
  unfold insertPortMapping at h
  split at h
  · cases h
  · rename_i hguard
    simp only [Option.some_inj, Prod.mk.injEq] at h
    have hfree : ∀ q ∈ db.portMappings, q.hostPort ≠ hp ∧ q.hostname ≠ hn := by
      intro q hq
      have := fun hh => hguard (List.any_eq_true.2 ⟨q, hq, hh⟩)
      constructor
      · intro he
        exact this (by simp [he])
      · intro he
        exact this (by simp [he])
    have hpm : db'.portMappings = db.portMappings ++ [⟨db.nextPortMappingId, e, cp, hp, hn⟩] := by
      rw [← h.2]
    unfold PortsIsolated at hiso ⊢
    rw [hpm]
    constructor
    · rw [List.map_append, List.nodup_append]
      refine ⟨hiso.1, by simp, ?_⟩
      intro x hx
      obtain ⟨q, hq, hqx⟩ := List.mem_map.1 hx
      simp only [List.map_cons, List.map_nil, List.mem_singleton]
      intro he
      exact (hfree q hq).1 (by rw [hqx, he])
    · rw [List.map_append, List.nodup_append]
      refine ⟨hiso.2, by simp, ?_⟩
      intro x hx
      obtain ⟨q, hq, hqx⟩ := List.mem_map.1 hx
      simp only [List.map_cons, List.map_nil, List.mem_singleton]
      intro he
      exact (hfree q hq).2 (by rw [hqx, he])

theorem DbStep_preserves_isolated {db db' : Db} (h : DbStep db db')
    (hiso : PortsIsolated db) : PortsIsolated db' := by
  cases h with
  | insertProject h =>
    refine isolated_of_pm_eq ?_ hiso
    unfold insertProject at h
    split at h
    · cases h
    · simp only [Option.some_inj, Prod.mk.injEq] at h
      rw [← h.2]
  | insertEnvironment h =>
    refine isolated_of_pm_eq ?_ hiso
    unfold insertEnvironment at h
    split at h
    · cases h
    · simp only [Option.some_inj, Prod.mk.injEq] at h
      rw [← h.2]
  | updateEnvironmentStatus i s => exact isolated_of_pm_eq rfl hiso
  | updateEnvironmentContainer i c => exact isolated_of_pm_eq rfl hiso
  | upsertEnvFile e p c =>
    exact isolated_of_pm_eq (upsertEnvFile_frame_fields db e p c).2.2 hiso
  | insertPortMapping h => exact insertPortMapping_isolated h hiso
  | deletePortMappings e =>
    unfold PortsIsolated at hiso ⊢
    unfold deletePortMappings
    exact ⟨(((List.filter_sublist _).map _).nodup hiso.1),
      (((List.filter_sublist _).map _).nodup hiso.2)⟩

theorem allocPorts_isolated (envId : Nat) (pn bn : String) :
    ∀ (ports : List Nat) (db : Db), PortsIsolated db →
    PortsIsolated (allocPorts db envId pn bn ports).1 ∧
    List.Sublist db.portMappings (allocPorts db envId pn bn ports).1.portMappings := by
  intro ports
  induction ports with
  | nil => intro db hiso; exact ⟨hiso, List.Sublist.refl _⟩
  | cons cp rest ih =>
    intro db hiso
    simp only [allocPorts]
    cases hins : insertPortMapping db envId cp (getNextAvailableHostPort db)
        (generateHostname pn bn (some cp)) with
    | none => exact ⟨hiso, List.Sublist.refl _⟩
    | some md =>
      obtain ⟨m, db'⟩ := md
      dsimp only
      have hiso' : PortsIsolated db' := insertPortMapping_isolated hins hiso
      have hsub1 : List.Sublist db.portMappings db'.portMappings := by
        unfold insertPortMapping at hins
        split at hins
        · cases hins
        · simp only [Option.some_inj, Prod.mk.injEq] at hins
          rw [← hins.2]
          exact List.sublist_append_left _ _
      obtain ⟨hiso2, hsub2⟩ := ih db' hiso'
      cases hrest : allocPorts db' envId pn bn rest with
      | mk dbf r =>
        rw [hrest] at hiso2 hsub2
        cases r with
        | none => exact ⟨hiso2, hsub1.trans hsub2⟩
        | some pms => exact ⟨hiso2, hsub1.trans hsub2⟩

/-- C1: every reachable store state keeps all `hostPort` values pairwise
distinct and all `hostname` values pairwise distinct across all
environments (the SQL UNIQUE constraints make the violating insert fail);
in particular `branch` preserves this isolation, and it only ever appends
port mappings — it never removes or reuses a hostPort or hostname held by
the source environment or any other environment. -/
theorem ports_isolation_invariant :
    (∀ db, Reachable db → PortsIsolated db) ∧
    (∀ (db : Db) (st : CaddyState) (envName newBranch : String) (fp : List Nat)
        (oracle : RuntimeOracle), PortsIsolated db →
      PortsIsolated (branch db st envName newBranch fp oracle).1 ∧
      List.Sublist db.portMappings
        (branch db st envName newBranch fp oracle).1.portMappings) := by
  constructor
  · intro db h
    induction h with
    | refl =>
      refine ⟨?_, ?_⟩ <;> simp [emptyDb]
    | tail _ hstep ih => exact DbStep_preserves_isolated hstep ih
  · intro db st envName newBranch fp oracle hiso
    cases henv : getEnvironmentByName db envName with
    | none =>
      simp only [branch, henv]
      exact ⟨hiso, List.Sublist.refl _⟩
    | some sourceEnv =>
      cases hproj : getProjectById db sourceEnv.projectId with
      | none =>
        simp only [branch, henv, hproj]
        exact ⟨hiso, List.Sublist.refl _⟩
      | some project =>
        cases hins2 : insertEnvironment db sourceEnv.projectId
            (project.name ++ "-" ++ slugify newBranch) newBranch
            (some (project.repoPath ++ "/.devenv/worktrees/" ++ newBranch))
            sourceEnv.devcontainerConfig with
        | none =>
          simp only [branch, henv, hproj, hins2]
          exact ⟨hiso, List.Sublist.refl _⟩
        | some md =>
          obtain ⟨newEnv, db1⟩ := md
          simp only [branch, henv, hproj, hins2]
          have hpm1 : db1.portMappings = db.portMappings := by
            unfold insertEnvironment at hins2
            split at hins2
            · cases hins2
            · simp only [Option.some_inj, Prod.mk.injEq] at hins2
              rw [← hins2.2]
          have hiso1 : PortsIsolated db1 := isolated_of_pm_eq hpm1 hiso
          obtain ⟨hf1, hf2, hf3⟩ :=
            foldUpsert_fields newEnv.id (getEnvFiles db1 sourceEnv.id) db1
          have hiso2 : PortsIsolated ((getEnvFiles db1 sourceEnv.id).foldl
              (fun d f => upsertEnvFile d newEnv.id f.relativePath f.content) db1) :=
            isolated_of_pm_eq hf3 hiso1
          obtain ⟨hiso3, hsub3⟩ := allocPorts_isolated newEnv.id project.name newBranch fp
            ((getEnvFiles db1 sourceEnv.id).foldl
              (fun d f => upsertEnvFile d newEnv.id f.relativePath f.content) db1) hiso2
          have hsub0 : List.Sublist db.portMappings
              (allocPorts ((getEnvFiles db1 sourceEnv.id).foldl
                (fun d f => upsertEnvFile d newEnv.id f.relativePath f.content) db1)
                newEnv.id project.name newBranch fp).1.portMappings := by
            rw [hf3, hpm1] at hsub3
            exact hsub3
          cases halloc : allocPorts ((getEnvFiles db1 sourceEnv.id).foldl
              (fun d f => upsertEnvFile d newEnv.id f.relativePath f.content) db1)
              newEnv.id project.name newBranch fp with
          | mk db3 r =>
            rw [halloc] at hiso3 hsub0
            cases r with
            | none => exact ⟨hiso3, hsub0⟩
            | some pms => exact ⟨isolated_of_pm_eq rfl hiso3, hsub0⟩

/-- Closed witness for `ports_isolation_invariant`. -/
theorem ports_isolation_invariant_witness :
    PortsIsolated emptyDb ∧
    PortsIsolated (branch dbBranchSource none "demo-main" "dev" [3000] oracleGone).1 :=
  ⟨ports_isolation_invariant.1 emptyDb Relation.ReflTransGen.refl,
   (ports_isolation_invariant.2 dbBranchSource none "demo-main" "dev" [3000] oracleGone
     ⟨by decide, by decide⟩).1⟩

/-! ### C2: retry-safety of create — support lemmas -/

theorem ensureProject_fields (db : Db) (n rp : String) :
    (ensureProject db n rp).1.environments = db.environments ∧
    (ensureProject db n rp).1.envFiles = db.envFiles ∧
    (ensureProject db n rp).1.portMappings = db.portMappings ∧
    (ensureProject db n rp).1.nextPortMappingId = db.nextPortMappingId ∧
    (ensureProject db n rp).1.nextEnvironmentId = db.nextEnvironmentId := by
  unfold ensureProject
  cases h : getProjectByName db n with
  | some p => exact ⟨rfl, rfl, rfl, rfl, rfl⟩
  | none =>
    by_cases hguard : (db.projects.any (fun p => p.name == n)) = true
    · simp [insertProject, hguard]
    · simp [insertProject, hguard]

theorem ensureProject_post (db : Db) (n rp : String) :
    ∃ p dbP, ensureProject db n rp = (dbP, some p.id) ∧
      getProjectByName dbP n = some p := by
  unfold ensureProject
  cases h : getProjectByName db n with
  | some p => exact ⟨p, db, rfl, h⟩
  | none =>
    have hguard : (db.projects.any (fun p => p.name == n)) = false := by
      rw [List.any_eq_false]
      intro x hx
      exact List.find?_eq_none.1 h x hx
    refine ⟨⟨db.nextProjectId, n, rp⟩,
      { db with projects := db.projects ++ [⟨db.nextProjectId, n, rp⟩],
                nextProjectId := db.nextProjectId + 1 }, ?_, ?_⟩
    · simp [insertProject, hguard]
    · unfold getProjectByName at h ⊢
      simp only
      rw [List.find?_append, h]
      simp

theorem upsertEnvFile_next (db : Db) (e : Nat) (p c : String) :
    (upsertEnvFile db e p c).nextPortMappingId = db.nextPortMappingId ∧
    (upsertEnvFile db e p c).nextEnvironmentId = db.nextEnvironmentId := by
  unfold upsertEnvFile
  split <;> exact ⟨rfl, rfl⟩

theorem upsertEnvFiles_fields (envId : Nat) :
    ∀ (files : List (String × String)) (db : Db),
    (upsertEnvFiles db envId files).projects = db.projects ∧
    (upsertEnvFiles db envId files).environments = db.environments ∧
    (upsertEnvFiles db envId files).portMappings = db.portMappings ∧
    (upsertEnvFiles db envId files).nextPortMappingId = db.nextPortMappingId := by
  intro files
  induction files with
  | nil => intro db; exact ⟨rfl, rfl, rfl, rfl⟩
  | cons f fs ih =>
    intro db
    have hstep := upsertEnvFile_frame_fields db envId f.1 f.2
    have hnext := upsertEnvFile_next db envId f.1 f.2
    have hrec := ih (upsertEnvFile db envId f.1 f.2)
    refine ⟨?_, ?_, ?_, ?_⟩
    · rw [show upsertEnvFiles db envId (f :: fs)
          = upsertEnvFiles (upsertEnvFile db envId f.1 f.2) envId fs from rfl,
        hrec.1, hstep.1]
    · rw [show upsertEnvFiles db envId (f :: fs)
          = upsertEnvFiles (upsertEnvFile db envId f.1 f.2) envId fs from rfl,
        hrec.2.1, hstep.2.1]
    · rw [show upsertEnvFiles db envId (f :: fs)
          = upsertEnvFiles (upsertEnvFile db envId f.1 f.2) envId fs from rfl,
        hrec.2.2.1, hstep.2.2]
    · rw [show upsertEnvFiles db envId (f :: fs)
          = upsertEnvFiles (upsertEnvFile db envId f.1 f.2) envId fs from rfl,
        hrec.2.2.2, hnext.1]

theorem allocPorts_congr (envId : Nat) (pn bn : String) :
    ∀ (ports : List Nat) (d1 d2 : Db),
      d1.portMappings.map (fun m => (m.hostPort, m.hostname))
        = d2.portMappings.map (fun m => (m.hostPort, m.hostname)) →
      (allocPorts d1 envId pn bn ports).2 = (allocPorts d2 envId pn bn ports).2 := by
  intro ports
  induction ports with
  | nil => intro d1 d2 _; rfl
  | cons cp rest ih =>
    intro d1 d2 hpair
    have hhp : d1.portMappings.map (fun m => m.hostPort)
        = d2.portMappings.map (fun m => m.hostPort) := by
      have := congrArg (List.map Prod.fst) hpair
      simpa [List.map_map, Function.comp] using this
    have hnext : getNextAvailableHostPort d1 = getNextAvailableHostPort d2 := by
      unfold getNextAvailableHostPort
      rw [hhp]
    have hone : ∀ (d : Db) (hp : Nat) (hn : String),
        (d.portMappings.any (fun m => m.hostPort == hp || m.hostname == hn))
        = ((d.portMappings.map (fun m => (m.hostPort, m.hostname))).any
            (fun q => q.1 == hp || q.2 == hn)) := by
      intro d hp hn
      induction d.portMappings with
      | nil => rfl
      | cons a t iht => simp [iht]
    have hguardEq : (d1.portMappings.any (fun m =>
        m.hostPort == getNextAvailableHostPort d1 ||
        m.hostname == generateHostname pn bn (some cp)))
        = (d2.portMappings.any (fun m =>
        m.hostPort == getNextAvailableHostPort d2 ||
        m.hostname == generateHostname pn bn (some cp))) := by
      rw [hone, hone, hpair, hnext]
    simp only [allocPorts]
    by_cases hg : (d1.portMappings.any (fun m =>
        m.hostPort == getNextAvailableHostPort d1 ||
        m.hostname == generateHostname pn bn (some cp))) = true
    · have hi1 : insertPortMapping d1 envId cp (getNextAvailableHostPort d1)
          (generateHostname pn bn (some cp)) = none := by
        unfold insertPortMapping
        rw [if_pos hg]
      have hi2 : insertPortMapping d2 envId cp (getNextAvailableHostPort d2)
          (generateHostname pn bn (some cp)) = none := by
        unfold insertPortMapping
        rw [if_pos (hguardEq ▸ hg)]
      rw [hi1, hi2]
    · have hg2 : ¬ (d2.portMappings.any (fun m =>
          m.hostPort == getNextAvailableHostPort d2 ||
          m.hostname == generateHostname pn bn (some cp))) = true := by
        rw [← hguardEq]
        exact hg
      cases hi1 : insertPortMapping d1 envId cp (getNextAvailableHostPort d1)
          (generateHostname pn bn (some cp)) with
      | none =>
        exfalso
        unfold insertPortMapping at hi1
        rw [if_neg hg] at hi1
        cases hi1
      | some md1 =>
        obtain ⟨m1, d1'⟩ := md1
        cases hi2 : insertPortMapping d2 envId cp (getNextAvailableHostPort d2)
            (generateHostname pn bn (some cp)) with
        | none =>
          exfalso
          unfold insertPortMapping at hi2
          rw [if_neg hg2] at hi2
          cases hi2
        | some md2 =>
          obtain ⟨m2, d2'⟩ := md2
          dsimp only
          have hd1' : d1'.portMappings = d1.portMappings ++
              [⟨d1.nextPortMappingId, envId, cp, getNextAvailableHostPort d1,
                generateHostname pn bn (some cp)⟩] := by
            unfold insertPortMapping at hi1
            rw [if_neg hg] at hi1
            simp only [Option.some_inj, Prod.mk.injEq] at hi1
            rw [← hi1.2]
          have hd2' : d2'.portMappings = d2.portMappings ++
              [⟨d2.nextPortMappingId, envId, cp, getNextAvailableHostPort d2,
                generateHostname pn bn (some cp)⟩] := by
            unfold insertPortMapping at hi2
            rw [if_neg hg2] at hi2
            simp only [Option.some_inj, Prod.mk.injEq] at hi2
            rw [← hi2.2]
          have hpair' : d1'.portMappings.map (fun m => (m.hostPort, m.hostname))
              = d2'.portMappings.map (fun m => (m.hostPort, m.hostname)) := by
            rw [hd1', hd2']
            simp [hpair, hnext]
          have hr := ih d1' d2' hpair'
          cases h1 : allocPorts d1' envId pn bn rest with
          | mk f1 r1 =>
            cases h2 : allocPorts d2' envId pn bn rest with
            | mk f2 r2 =>
              rw [h1, h2] at hr
              dsimp only at hr
              subst hr
              cases r1 with
              | none => rfl
              | some pms =>
                dsimp only
                rw [hnext]

theorem allocPorts_spec (envId : Nat) (pn bn : String) :
    ∀ (ports : List Nat) (db : Db) (pms : List (Nat × Nat × String)),
    (allocPorts db envId pn bn ports).2 = some pms →
    ∃ news,
      (allocPorts db envId pn bn ports).1.portMappings = db.portMappings ++ news ∧
      news.length = ports.length ∧
      (∀ m ∈ news, m.environmentId = envId ∧ db.nextPortMappingId ≤ m.id) ∧
      (news.map (fun m => m.hostPort)).Nodup ∧
      (news.map (fun m => m.hostname)).Nodup ∧
      (∀ m ∈ news, m.hostPort ∉ db.portMappings.map (fun q => q.hostPort)) ∧
      (∀ m ∈ news, m.hostname ∉ db.portMappings.map (fun q => q.hostname)) := by
  intro ports
  induction ports with
  | nil =>
    intro db pms _
    exact ⟨[], by simp [allocPorts], rfl, by simp, by simp, by simp, by simp, by simp⟩
  | cons cp rest ih =>
    intro db pms hsome
    simp only [allocPorts] at hsome ⊢
    cases hins : insertPortMapping db envId cp (getNextAvailableHostPort db)
        (generateHostname pn bn (some cp)) with
    | none =>
      rw [hins] at hsome
      cases hsome
    | some md =>
      obtain ⟨m0, db'⟩ := md
      rw [hins] at hsome
      dsimp only at hsome
      have hguard : (db.portMappings.any (fun m =>
          m.hostPort == getNextAvailableHostPort db ||
          m.hostname == generateHostname pn bn (some cp))) = false := by
        unfold insertPortMapping at hins
        split at hins
        · cases hins
        · rename_i hg
          simpa using hg
      have hdbeq : db'.portMappings = db.portMappings ++
          [⟨db.nextPortMappingId, envId, cp, getNextAvailableHostPort db,
            generateHostname pn bn (some cp)⟩] ∧
          db'.nextPortMappingId = db.nextPortMappingId + 1 := by
        unfold insertPortMapping at hins
        split at hins
        · cases hins
        · simp only [Option.some_inj, Prod.mk.injEq] at hins
          rw [← hins.2]
          exact ⟨rfl, rfl⟩
      have hfree : ∀ q ∈ db.portMappings,
          q.hostPort ≠ getNextAvailableHostPort db ∧
          q.hostname ≠ generateHostname pn bn (some cp) := by
        intro q hq
        have hq2 := List.any_eq_false.1 hguard q hq
        constructor
        · intro he
          exact hq2 (by simp [he])
        · intro he
          exact hq2 (by simp [he])
      cases hrest : allocPorts db' envId pn bn rest with
      | mk dbf r =>
        rw [hrest] at hsome
        cases r with
        | none => cases hsome
        | some pms' =>
          obtain ⟨news', hpm', hlen', hmem', hnodp', hnodn', hfp', hfn'⟩ :=
            ih db' pms' (by rw [hrest])
          rw [hrest] at hpm'
          dsimp only at hpm'
          refine ⟨(⟨db.nextPortMappingId, envId, cp, getNextAvailableHostPort db,
            generateHostname pn bn (some cp)⟩ : PortMapping) :: news',
            ?_, ?_, ?_, ?_, ?_, ?_, ?_⟩
          · dsimp only
            rw [hrest]
            dsimp only
            rw [hpm', hdbeq.1]
            simp
          · simp [hlen']
          · intro m hm
            rcases List.mem_cons.1 hm with rfl | hm'
            · exact ⟨rfl, Nat.le_refl _⟩
            · obtain ⟨h1, h2⟩ := hmem' m hm'
              refine ⟨h1, ?_⟩
              rw [hdbeq.2] at h2
              omega
          · rw [List.map_cons]
            refine List.nodup_cons.2 ⟨?_, hnodp'⟩
            intro hmem
            obtain ⟨q, hq, hqe⟩ := List.mem_map.1 hmem
            have := hfp' q hq
            rw [hdbeq.1] at this
            refine this ?_
            rw [List.map_append]
            refine List.mem_append.2 (Or.inr ?_)
            simp [hqe]
          · rw [List.map_cons]
            refine List.nodup_cons.2 ⟨?_, hnodn'⟩
            intro hmem
            obtain ⟨q, hq, hqe⟩ := List.mem_map.1 hmem
            have := hfn' q hq
            rw [hdbeq.1] at this
            refine this ?_
            rw [List.map_append]
            refine List.mem_append.2 (Or.inr ?_)
            simp [hqe]
          · intro m hm
            rcases List.mem_cons.1 hm with rfl | hm'
            · intro hmem
              obtain ⟨q, hq, hqe⟩ := List.mem_map.1 hmem
              exact (hfree q hq).1 hqe
            · intro hmem
              obtain ⟨q, hq, hqe⟩ := List.mem_map.1 hmem
              refine hfp' m hm' ?_
              rw [hdbeq.1, List.map_append]
              exact List.mem_append.2 (Or.inl (List.mem_map.2 ⟨q, hq, hqe⟩))
          · intro m hm
            rcases List.mem_cons.1 hm with rfl | hm'
            · intro hmem
              obtain ⟨q, hq, hqe⟩ := List.mem_map.1 hmem
              exact (hfree q hq).2 hqe
            · intro hmem
              obtain ⟨q, hq, hqe⟩ := List.mem_map.1 hmem
              refine hfn' m hm' ?_
              rw [hdbeq.1, List.map_append]
              exact List.mem_append.2 (Or.inl (List.mem_map.2 ⟨q, hq, hqe⟩))


theorem filter_idem {α} (p : α → Bool) (l : List α) :
    (l.filter p).filter p = l.filter p := by
  rw [List.filter_filter]
  have hpp : (fun a => p a && p a) = p := funext (fun a => Bool.and_self (p a))
  rw [hpp]

theorem countP_name_updateStatus (db : Db) (i : Nat) (s : EnvStatus) (nm : String) :
    (updateEnvironmentStatus db i s).environments.countP (fun e => e.name == nm)
      = db.environments.countP (fun e => e.name == nm) := by
  unfold updateEnvironmentStatus
  dsimp only
  rw [List.countP_map]
  have hg : ((fun e : Environment => e.name == nm) ∘ fun e =>
      if e.id = i then { e with status := s } else e)
      = (fun e : Environment => e.name == nm) := by
    funext e
    by_cases h : e.id = i <;> simp [h, Function.comp]
  rw [hg]

theorem countP_name_updateContainer (db : Db) (i : Nat) (c : String) (nm : String) :
    (updateEnvironmentContainer db i c).environments.countP (fun e => e.name == nm)
      = db.environments.countP (fun e => e.name == nm) := by
  unfold updateEnvironmentContainer
  dsimp only
  rw [List.countP_map]
  have hg : ((fun e : Environment => e.name == nm) ∘ fun e =>
      if e.id = i then { e with containerId := some c } else e)
      = (fun e : Environment => e.name == nm) := by
    funext e
    by_cases h : e.id = i <;> simp [h, Function.comp]
  rw [hg]

theorem createReconcile_fresh {dbP : Db} {pid : Nat} {envName branchName : String}
    {wt cfg : Option String} {oracle : RuntimeOracle}
    (henvP : getEnvironmentByName dbP envName = none) :
    ∃ dbE envRec,
      createReconcile dbP pid envName branchName wt cfg oracle
        = (dbE, .ok (envRec, false)) ∧
      envRec.name = envName ∧ envRec.status = .created ∧
      envRec.id = dbP.nextEnvironmentId ∧
      dbE.environments = dbP.environments ++ [envRec] ∧
      dbE.portMappings = dbP.portMappings ∧
      dbE.nextPortMappingId = dbP.nextPortMappingId ∧
      dbE.projects = dbP.projects := by
  have hguardE : (dbP.environments.any (fun e => e.name == envName)) = false := by
    rw [List.any_eq_false]
    intro x hx
    exact List.find?_eq_none.1 henvP x hx
  have hmain : createReconcile dbP pid envName branchName wt cfg oracle
      = ({ dbP with environments := dbP.environments ++ [⟨dbP.nextEnvironmentId, pid, envName, branchName, .created, none, wt, cfg⟩], nextEnvironmentId := dbP.nextEnvironmentId + 1 }, .ok (⟨dbP.nextEnvironmentId, pid, envName, branchName, .created, none, wt, cfg⟩, false)) := by
    unfold createReconcile
    rw [henvP]
    unfold insertEnvironment
    rw [if_neg (by simp [hguardE])]
  exact ⟨_, ⟨dbP.nextEnvironmentId, pid, envName, branchName, .created, none, wt, cfg⟩,
    hmain, rfl, rfl, rfl, rfl, rfl, rfl, rfl⟩


/-- C2: `create` is retry-safe with respect to port mappings and environment
rows.  If a first `create` for a fresh (project, branch) completes its store
phase but stops before any network step (modelled by `createDbPhase` alone
having run, leaving store `db1`), then retrying `create` on `db1` succeeds and
leaves exactly one environment row with the derived name, and the target
environment's port mappings are exactly one fresh allocation: one row per
forwarded port, mutually distinct host ports and hostnames, and every row
freshly inserted by the retry (id at least `db1.nextPortMappingId`), i.e. the
delete-before-reallocate step leaves no duplicate rows from the first
attempt. -/
theorem create_retry_safe (db0 : Db) (st : CaddyState) (inp : CreateInput)
    (oracle1 oracle2 : RuntimeOracle) (db1 : Db) (env : Environment) (re : Bool)
    (pms1 : List (Nat × Nat × String))
    (henv0 : getEnvironmentByName db0 (slugify inp.repoName ++ "-" ++ slugify inp.branch) = none)
    (h1 : createDbPhase db0 inp oracle1 = (db1, .ok (env, re, pms1))) :
    ∃ db2 st2 out, create db1 st inp oracle2 = (db2, st2, .ok out) ∧
      db2.environments.countP
        (fun e => e.name == slugify inp.repoName ++ "-" ++ slugify inp.branch) = 1 ∧
      (db2.portMappings.filter (fun m => m.environmentId == env.id)).length
        = inp.forwardPorts.length ∧
      ((db2.portMappings.filter (fun m => m.environmentId == env.id)).map
        (fun m => m.hostPort)).Nodup ∧
      ((db2.portMappings.filter (fun m => m.environmentId == env.id)).map
        (fun m => m.hostname)).Nodup ∧
      (∀ m ∈ db2.portMappings.filter (fun m => m.environmentId == env.id),
        db1.nextPortMappingId ≤ m.id) := by
  obtain ⟨proj, dbP, hensEq, hprojP⟩ := ensureProject_post db0 (slugify inp.repoName) inp.repoPath
  have hF := ensureProject_fields db0 (slugify inp.repoName) inp.repoPath
  rw [hensEq] at hF
  dsimp only [] at hF
  unfold createDbPhase at h1
  dsimp only [] at h1
  rw [hensEq] at h1
  dsimp only [] at h1
  have henvP : getEnvironmentByName dbP (slugify inp.repoName ++ "-" ++ slugify inp.branch) = none := by
    unfold getEnvironmentByName at henv0 ⊢
    rw [hF.1]
    exact henv0
  obtain ⟨dbE, envRec, hrecEq, hname, hstatus, hid, hEenvs, hEpms, hEnextpm, hEprojs⟩ :=
    @createReconcile_fresh dbP proj.id _ inp.branch
      (some (inp.repoPath ++ "/.devenv/worktrees/" ++ inp.branch))
      inp.devcontainerConfig oracle1 henvP
  rw [hrecEq] at h1
  dsimp only [] at h1
  cases halloc1 : allocPorts (deletePortMappings (upsertEnvFiles dbE envRec.id inp.envFiles)
      envRec.id) envRec.id (slugify inp.repoName) inp.branch inp.forwardPorts with
  | mk dbf r =>
  rw [halloc1] at h1
  cases r with
  | none => dsimp only [] at h1; simp at h1
  | some pmsX =>
  dsimp only [] at h1
  simp only [Prod.mk.injEq, Except.ok.injEq] at h1
  obtain ⟨hdb1, henvE, hre, hpmsE⟩ := h1
  subst hdb1
  subst henvE
  have hUf := upsertEnvFiles_fields envRec.id inp.envFiles dbE
  have hAenvs : (deletePortMappings (upsertEnvFiles dbE envRec.id inp.envFiles) envRec.id).environments
      = dbP.environments ++ [envRec] := by
    rw [show (deletePortMappings (upsertEnvFiles dbE envRec.id inp.envFiles) envRec.id).environments
        = (upsertEnvFiles dbE envRec.id inp.envFiles).environments from rfl, hUf.2.1, hEenvs]
  have hAprojs : (deletePortMappings (upsertEnvFiles dbE envRec.id inp.envFiles) envRec.id).projects
      = dbP.projects := by
    rw [show (deletePortMappings (upsertEnvFiles dbE envRec.id inp.envFiles) envRec.id).projects
        = (upsertEnvFiles dbE envRec.id inp.envFiles).projects from rfl, hUf.1, hEprojs]
  have hAF1 := allocPorts_fields envRec.id (slugify inp.repoName) inp.branch inp.forwardPorts
    (deletePortMappings (upsertEnvFiles dbE envRec.id inp.envFiles) envRec.id)
  rw [halloc1] at hAF1
  dsimp only [] at hAF1
  obtain ⟨news1, hN1pms, hN1len, hN1envfull, hN1a, hN1b, hN1c, hN1d⟩ :=
    allocPorts_spec envRec.id (slugify inp.repoName) inp.branch inp.forwardPorts
      (deletePortMappings (upsertEnvFiles dbE envRec.id inp.envFiles) envRec.id) pmsX
      (by rw [halloc1])
  have hN1env : ∀ m ∈ news1, m.environmentId = envRec.id := fun m hm => (hN1envfull m hm).1
  rw [halloc1] at hN1pms
  dsimp only [] at hN1pms
  have hdbfenvs : dbf.environments = db0.environments ++ [envRec] := by
    rw [hAF1.1.2.1, hAenvs, hF.1]
  have hdbfprojs : dbf.projects = dbP.projects := by rw [hAF1.1.1, hAprojs]
  have hproj2 : getProjectByName dbf (slugify inp.repoName) = some proj := by
    unfold getProjectByName at hprojP ⊢
    rw [hdbfprojs]
    exact hprojP
  have hens2 : ensureProject dbf (slugify inp.repoName) inp.repoPath = (dbf, some proj.id) :=
    ensureProject_of_found hproj2
  have henv2 : getEnvironmentByName dbf (slugify inp.repoName ++ "-" ++ slugify inp.branch)
      = some envRec := by
    unfold getEnvironmentByName at henv0 ⊢
    rw [hdbfenvs, List.find?_append, henv0]
    simp [hname]
  have hrec2 : createReconcile dbf proj.id (slugify inp.repoName ++ "-" ++ slugify inp.branch)
      inp.branch (some (inp.repoPath ++ "/.devenv/worktrees/" ++ inp.branch))
      inp.devcontainerConfig oracle2 = (dbf, .ok (envRec, true)) := by
    unfold createReconcile
    rw [henv2]
    dsimp only []
    rw [if_neg (by rw [hstatus]; intro hcon; cases hcon)]
  have hAnone : ∀ m ∈ (deletePortMappings (upsertEnvFiles dbE envRec.id inp.envFiles)
      envRec.id).portMappings, m.environmentId ≠ envRec.id := by
    intro m hm
    have hm2 : m ∈ (upsertEnvFiles dbE envRec.id inp.envFiles).portMappings.filter
        (fun m => ¬ m.environmentId = envRec.id) := hm
    have h2 := List.mem_filter.1 hm2
    simpa using h2.2
  have hUf2 := upsertEnvFiles_fields envRec.id inp.envFiles dbf
  have hBpms : (deletePortMappings (upsertEnvFiles dbf envRec.id inp.envFiles)
      envRec.id).portMappings
      = (deletePortMappings (upsertEnvFiles dbE envRec.id inp.envFiles) envRec.id).portMappings := by
    rw [show (deletePortMappings (upsertEnvFiles dbf envRec.id inp.envFiles) envRec.id).portMappings
        = (upsertEnvFiles dbf envRec.id inp.envFiles).portMappings.filter
            (fun m => ¬ m.environmentId = envRec.id) from rfl,
      hUf2.2.2.1, hN1pms, List.filter_append]
    have hfa : (deletePortMappings (upsertEnvFiles dbE envRec.id inp.envFiles)
        envRec.id).portMappings.filter (fun m => ¬ m.environmentId = envRec.id)
        = (deletePortMappings (upsertEnvFiles dbE envRec.id inp.envFiles) envRec.id).portMappings := by
      rw [List.filter_eq_self]
      intro a ha
      simp only [decide_eq_true_eq]
      exact hAnone a ha
    have hfn : news1.filter (fun m => ¬ m.environmentId = envRec.id) = [] := by
      rw [List.filter_eq_nil_iff]
      intro a ha
      simp [hN1env a ha]
    rw [hfa, hfn, List.append_nil]
  have hBenvs : (deletePortMappings (upsertEnvFiles dbf envRec.id inp.envFiles)
      envRec.id).environments = dbf.environments := by
    rw [show (deletePortMappings (upsertEnvFiles dbf envRec.id inp.envFiles) envRec.id).environments
        = (upsertEnvFiles dbf envRec.id inp.envFiles).environments from rfl, hUf2.2.1]
  have hBnext : (deletePortMappings (upsertEnvFiles dbf envRec.id inp.envFiles)
      envRec.id).nextPortMappingId = dbf.nextPortMappingId := by
    rw [show (deletePortMappings (upsertEnvFiles dbf envRec.id inp.envFiles) envRec.id).nextPortMappingId
        = (upsertEnvFiles dbf envRec.id inp.envFiles).nextPortMappingId from rfl, hUf2.2.2.2]
  have hcong : (allocPorts (deletePortMappings (upsertEnvFiles dbf envRec.id inp.envFiles) envRec.id)
      envRec.id (slugify inp.repoName) inp.branch inp.forwardPorts).2 = some pmsX := by
    rw [allocPorts_congr envRec.id (slugify inp.repoName) inp.branch inp.forwardPorts _ _
      (congrArg (List.map (fun m => (m.hostPort, m.hostname))) hBpms), halloc1]
  cases halloc2 : allocPorts (deletePortMappings (upsertEnvFiles dbf envRec.id inp.envFiles)
      envRec.id) envRec.id (slugify inp.repoName) inp.branch inp.forwardPorts with
  | mk db3 r2 =>
  rw [halloc2] at hcong
  dsimp only [] at hcong
  subst hcong
  obtain ⟨news2, hN2pms, hN2len, hN2env, hN2hp, hN2hn, hN2fp, hN2fn⟩ :=
    allocPorts_spec envRec.id (slugify inp.repoName) inp.branch inp.forwardPorts
      (deletePortMappings (upsertEnvFiles dbf envRec.id inp.envFiles) envRec.id) pmsX
      (by rw [halloc2])
  rw [halloc2] at hN2pms
  dsimp only [] at hN2pms
  have hAF2 := allocPorts_fields envRec.id (slugify inp.repoName) inp.branch inp.forwardPorts
    (deletePortMappings (upsertEnvFiles dbf envRec.id inp.envFiles) envRec.id)
  rw [halloc2] at hAF2
  dsimp only [] at hAF2
  have hphase2 : createDbPhase dbf inp oracle2 = (db3, .ok (envRec, true, pmsX)) := by
    unfold createDbPhase
    dsimp only []
    rw [hens2]
    dsimp only []
    rw [hrec2]
    dsimp only []
    rw [halloc2]
  have hcreate : create dbf st inp oracle2
      = (updateEnvironmentStatus (updateEnvironmentContainer db3 envRec.id oracle2.containerId)
          envRec.id .running,
         addRoutes st (slugify inp.repoName ++ "-" ++ slugify inp.branch) pmsX,
         .ok ⟨envRec.id, slugify inp.repoName ++ "-" ++ slugify inp.branch,
           oracle2.containerId, true, pmsX⟩) := by
    unfold create
    dsimp only []
    rw [hphase2]
  refine ⟨_, _, _, hcreate, ?_, ?_, ?_, ?_, ?_⟩
  · rw [countP_name_updateStatus, countP_name_updateContainer, hAF2.1.2.1, hBenvs, hdbfenvs,
      List.countP_append]
    have h0 : db0.environments.countP
        (fun e => e.name == slugify inp.repoName ++ "-" ++ slugify inp.branch) = 0 := by
      rw [List.countP_eq_zero]
      unfold getEnvironmentByName at henv0
      exact List.find?_eq_none.1 henv0
    rw [h0]
    simp [List.countP_cons, hname]
  all_goals
    have hfinal : (updateEnvironmentStatus (updateEnvironmentContainer db3 envRec.id
        oracle2.containerId) envRec.id .running).portMappings.filter
        (fun m => m.environmentId == envRec.id) = news2 := by
      rw [show (updateEnvironmentStatus (updateEnvironmentContainer db3 envRec.id
            oracle2.containerId) envRec.id .running).portMappings = db3.portMappings from rfl,
        hN2pms, hBpms, List.filter_append]
      have hza : (deletePortMappings (upsertEnvFiles dbE envRec.id inp.envFiles)
          envRec.id).portMappings.filter (fun m => m.environmentId == envRec.id) = [] := by
        rw [List.filter_eq_nil_iff]
        intro a ha
        simp [hAnone a ha]
      have hzn : news2.filter (fun m => m.environmentId == envRec.id) = news2 := by
        rw [List.filter_eq_self]
        intro a ha
        simp [(hN2env a ha).1]
      rw [hza, hzn, List.nil_append]
  · rw [hfinal, hN2len]
  · rw [hfinal]; exact hN2hp
  · rw [hfinal]; exact hN2hn
  · rw [hfinal]
    intro m hm
    have := (hN2env m hm).2
    rw [hBnext] at this
    exact this


/-- Closed witness for `create_retry_safe`: the first `create demo main` on the
empty store stops after its store phase; the retry completes with exactly one
`demo-main` row and one fresh port mapping. -/
theorem create_retry_safe_witness :
    ∃ db2 st2 out,
      create (createDbPhase emptyDb inpDemo oracleGone).1 none inpDemo oracleGone
        = (db2, st2, .ok out) ∧
      db2.environments.countP
        (fun e => e.name == slugify inpDemo.repoName ++ "-" ++ slugify inpDemo.branch) = 1 ∧
      (db2.portMappings.filter (fun m => m.environmentId == 1)).length
        = inpDemo.forwardPorts.length ∧
      ((db2.portMappings.filter (fun m => m.environmentId == 1)).map
        (fun m => m.hostPort)).Nodup ∧
      ((db2.portMappings.filter (fun m => m.environmentId == 1)).map
        (fun m => m.hostname)).Nodup ∧
      (∀ m ∈ db2.portMappings.filter (fun m => m.environmentId == 1),
        (createDbPhase emptyDb inpDemo oracleGone).1.nextPortMappingId ≤ m.id) :=
  create_retry_safe emptyDb none inpDemo oracleGone oracleGone
    (createDbPhase emptyDb inpDemo oracleGone).1
    ⟨1, 1, "demo-main", "main", .created, none, some "/repo/.devenv/worktrees/main", none⟩
    false [(3000, 49200, "demo-main.localhost")] rfl rfl


end DevEnv
